import Mathlib

/-!
# heFFTe stock backend: vector pack types (`heffte_stock_vec_types.h`)

A shallow embedding of the pack operations of `heffte::stock`.  Floating point
values are idealised as elements of an exact field `F` (so `float` and `double`
share the carrier and differ only in the register shape and the instructions
used).  Registers are finite maps from slot index to primitive; the AVX
intrinsics are modelled slot by slot from their documented operation, with the
immediates written exactly as in the source.  An array is the list of its
elements starting at the pointer; an access outside the array has no defined
result.  A pointer to complex numbers carries its position in the array, so
that negative strides can be followed; products of `int` values wrap to 32 bits.
-/

namespace heffte.stock

/-! ## `std::complex<F>` -/

/-- Model of `std::complex<F>`: a real and an imaginary primitive. -/
@[ext] structure complex (F : Type) where
  real : F
  imag : F
deriving DecidableEq

namespace complex

variable {F : Type} [Field F]

/-- Converting constructor `std::complex<F>(x)`: imaginary part defaults to zero. -/
def ofReal (x : F) : complex F := ⟨x, 0⟩

/-- Member-wise sum, `operator+` of two complex values. -/
def add (a b : complex F) : complex F := ⟨a.real + b.real, a.imag + b.imag⟩

/-- Member-wise difference, `operator-` of two complex values. -/
def sub (a b : complex F) : complex F := ⟨a.real - b.real, a.imag - b.imag⟩

/-- Complex product, `operator*` of two complex values. -/
def mul (a b : complex F) : complex F :=
  ⟨a.real * b.real - a.imag * b.imag, a.real * b.imag + a.imag * b.real⟩

/-- Product with a scalar, `operator*(complex, F)`: both members are scaled. -/
def mulScalar (a : complex F) (t : F) : complex F := ⟨a.real * t, a.imag * t⟩

/-- Quotient by a scalar, `operator/(complex, F)`: both members are divided. -/
def divScalar (a : complex F) (t : F) : complex F := ⟨a.real / t, a.imag / t⟩

/-- Squared magnitude `std::norm`. -/
def norm (a : complex F) : F := a.real * a.real + a.imag * a.imag

/-- Complex quotient, `operator/` of two complex values: the numerators
`Re a Re b + Im a Im b` and `Im a Re b - Re a Im b` over `norm b`. -/
def div (a b : complex F) : complex F :=
  let r := a.real * b.real + a.imag * b.imag
  let n := norm b
  ⟨r / n, (a.imag * b.real - a.real * b.imag) / n⟩

/-- Complex conjugate `std::conj`. -/
def conj (a : complex F) : complex F := ⟨a.real, -a.imag⟩

/-- Magnitude `std::abs`, taken with the square root function `sqrt` of the carrier. -/
def abs (sqrt : F → F) (a : complex F) : F := sqrt (norm a)

end complex

/-- A pointer `std::complex<F> const *`: the array it points into and the
index of the pointee in that array. -/
structure complex_ptr (F : Type) where
  array : List (complex F)
  pos : Nat

/-! ## Registers and intrinsics -/

/-- Register `__m128`: four single precision slots. -/
abbrev m128 (F : Type) := Fin 4 → F
/-- Register `__m256`: eight single precision slots. -/
abbrev m256 (F : Type) := Fin 8 → F
/-- Register `__m128d`: two double precision slots. -/
abbrev m128d (F : Type) := Fin 2 → F
/-- Register `__m256d`: four double precision slots. -/
abbrev m256d (F : Type) := Fin 4 → F

/-- Bitwise OR on the encodings of two primitives, as far as the exact model
can see it: the encoding of zero is all zero bits, so OR with zero gives back
the other operand.  Nothing is assumed when both operands are non-zero. -/
structure BitOr (F : Type) [Zero F] where
  or : F → F → F
  zero_or : ∀ x, or 0 x = x
  or_zero : ∀ x, or x 0 = x

/-- A concrete bitwise OR for carriers with decidable equality. -/
def BitOr.pick (F : Type) [Zero F] [DecidableEq F] : BitOr F where
  or x y := if x = 0 then y else x
  zero_or x := by simp
  or_zero x := by
    by_cases h : x = 0
    · simp [h]
    · simp [h]

section intrinsics

variable {F : Type} [Field F]

/-- Bit `j` of an immediate, written `imm8[j]` in the instruction reference. -/
def immBit (imm8 j : Nat) : Bool := imm8 / 2 ^ j % 2 = 1

/-- Low 128 bits of a 256-bit register of single precision slots. -/
def lo_ps (a : m256 F) : m128 F := fun j => a ⟨j.val, by omega⟩
/-- High 128 bits of a 256-bit register of single precision slots. -/
def hi_ps (a : m256 F) : m128 F := fun j => a ⟨4 + j.val, by omega⟩
/-- Concatenation of two 128-bit halves into a 256-bit register. -/
def join_ps (lo hi : m128 F) : m256 F := fun j =>
  if h : j.val < 4 then lo ⟨j.val, h⟩ else hi ⟨j.val - 4, by omega⟩

/-- Slot-wise negation, the unary minus of the compiler's vector types. -/
def vneg {n : Nat} (x : Fin n → F) : Fin n → F := fun j => - x j

def mm_add_ps (a b : m128 F) : m128 F := fun j => a j + b j
def mm256_add_ps (a b : m256 F) : m256 F := fun j => a j + b j
def mm_add_pd (a b : m128d F) : m128d F := fun j => a j + b j
def mm256_add_pd (a b : m256d F) : m256d F := fun j => a j + b j

def mm_sub_ps (a b : m128 F) : m128 F := fun j => a j - b j
def mm256_sub_ps (a b : m256 F) : m256 F := fun j => a j - b j
def mm_sub_pd (a b : m128d F) : m128d F := fun j => a j - b j
def mm256_sub_pd (a b : m256d F) : m256d F := fun j => a j - b j

def mm_mul_ps (a b : m128 F) : m128 F := fun j => a j * b j
def mm256_mul_ps (a b : m256 F) : m256 F := fun j => a j * b j
def mm_mul_pd (a b : m128d F) : m128d F := fun j => a j * b j
def mm256_mul_pd (a b : m256d F) : m256d F := fun j => a j * b j

def mm_div_ps (a b : m128 F) : m128 F := fun j => a j / b j
def mm256_div_ps (a b : m256 F) : m256 F := fun j => a j / b j
def mm_div_pd (a b : m128d F) : m128d F := fun j => a j / b j
def mm256_div_pd (a b : m256d F) : m256d F := fun j => a j / b j

/-- Shuffle `_mm_permute_ps`: slot `j` takes the source slot named by the two
bits `imm8[2j+1:2j]`. -/
def mm_permute_ps (a : m128 F) (imm8 : Nat) : m128 F := fun j =>
  a ⟨imm8 / 2 ^ (2 * j.val) % 4, Nat.mod_lt _ (by decide)⟩

/-- Shuffle `_mm256_permute_ps`: the 128-bit shuffle applied to each half with
the same immediate. -/
def mm256_permute_ps (a : m256 F) (imm8 : Nat) : m256 F :=
  join_ps (mm_permute_ps (lo_ps a) imm8) (mm_permute_ps (hi_ps a) imm8)

/-- Shuffle `_mm_permute_pd`: slot `j` takes slot 1 when `imm8[j]` is set, else slot 0. -/
def mm_permute_pd (a : m128d F) (imm8 : Nat) : m128d F := fun j =>
  if immBit imm8 j.val then a 1 else a 0

/-- Shuffle `_mm256_permute_pd`: within each 128-bit half, slot `j` takes the
upper slot of its half when `imm8[j]` is set, else the lower one. -/
def mm256_permute_pd (a : m256d F) (imm8 : Nat) : m256d F := fun j =>
  if j.val < 2 then (if immBit imm8 j.val then a 1 else a 0)
  else (if immBit imm8 j.val then a 3 else a 2)

/-- Fused `_mm_fmaddsub_ps`: `a*b - c` in the even slots, `a*b + c` in the odd slots. -/
def mm_fmaddsub_ps (a b c : m128 F) : m128 F := fun j =>
  if j.val % 2 = 0 then a j * b j - c j else a j * b j + c j
/-- Fused `_mm256_fmaddsub_ps`: `a*b - c` in the even slots, `a*b + c` in the odd slots. -/
def mm256_fmaddsub_ps (a b c : m256 F) : m256 F := fun j =>
  if j.val % 2 = 0 then a j * b j - c j else a j * b j + c j
/-- Fused `_mm_fmaddsub_pd`: `a*b - c` in the even slot, `a*b + c` in the odd slot. -/
def mm_fmaddsub_pd (a b c : m128d F) : m128d F := fun j =>
  if j.val % 2 = 0 then a j * b j - c j else a j * b j + c j
/-- Fused `_mm256_fmaddsub_pd`: `a*b - c` in the even slots, `a*b + c` in the odd slots. -/
def mm256_fmaddsub_pd (a b c : m256d F) : m256d F := fun j =>
  if j.val % 2 = 0 then a j * b j - c j else a j * b j + c j

/-- Dot product `_mm_dp_ps`: the products of the slots selected by the high
nibble of `imm8` are summed, and the sum is written to the slots selected by
the low nibble; the other slots are zero. -/
def mm_dp_ps (a b : m128 F) (imm8 : Nat) : m128 F :=
  let temp : m128 F := fun j => if immBit imm8 (4 + j.val) then a j * b j else 0
  let sum : F := (temp 3 + temp 2) + (temp 1 + temp 0)
  fun j => if immBit imm8 j.val then sum else 0

/-- Dot product `_mm256_dp_ps`: the 128-bit dot product on each half. -/
def mm256_dp_ps (a b : m256 F) (imm8 : Nat) : m256 F :=
  join_ps (mm_dp_ps (lo_ps a) (lo_ps b) imm8) (mm_dp_ps (hi_ps a) (hi_ps b) imm8)

/-- Dot product `_mm_dp_pd`: products selected by `imm8[5:4]`, sum written to
the slots selected by `imm8[1:0]`. -/
def mm_dp_pd (a b : m128d F) (imm8 : Nat) : m128d F :=
  let temp : m128d F := fun j => if immBit imm8 (4 + j.val) then a j * b j else 0
  let sum : F := temp 1 + temp 0
  fun j => if immBit imm8 j.val then sum else 0

/-- Horizontal add `_mm256_hadd_pd`: slots `(a1+a0, b1+b0, a3+a2, b3+b2)`. -/
def mm256_hadd_pd (a b : m256d F) : m256d F := fun j =>
  if j.val = 0 then a 1 + a 0
  else if j.val = 1 then b 1 + b 0
  else if j.val = 2 then a 3 + a 2
  else b 3 + b 2

/-- Bitwise `_mm_or_ps`, slot by slot. -/
def mm_or_ps (B : BitOr F) (a b : m128 F) : m128 F := fun j => B.or (a j) (b j)
/-- Bitwise `_mm256_or_ps`, slot by slot. -/
def mm256_or_ps (B : BitOr F) (a b : m256 F) : m256 F := fun j => B.or (a j) (b j)

def mm_sqrt_ps (sqrt : F → F) (a : m128 F) : m128 F := fun j => sqrt (a j)
def mm256_sqrt_ps (sqrt : F → F) (a : m256 F) : m256 F := fun j => sqrt (a j)
def mm_sqrt_pd (sqrt : F → F) (a : m128d F) : m128d F := fun j => sqrt (a j)
def mm256_sqrt_pd (sqrt : F → F) (a : m256d F) : m256d F := fun j => sqrt (a j)

/-- Select `_mm_blend_ps`: slot `j` comes from `b` when `imm8[j]` is set, else from `a`. -/
def mm_blend_ps (a b : m128 F) (imm8 : Nat) : m128 F := fun j =>
  if immBit imm8 j.val then b j else a j
/-- Select `_mm256_blend_ps`: slot `j` comes from `b` when `imm8[j]` is set, else from `a`. -/
def mm256_blend_ps (a b : m256 F) (imm8 : Nat) : m256 F := fun j =>
  if immBit imm8 j.val then b j else a j
/-- Select `_mm_blend_pd`: slot `j` comes from `b` when `imm8[j]` is set, else from `a`. -/
def mm_blend_pd (a b : m128d F) (imm8 : Nat) : m128d F := fun j =>
  if immBit imm8 j.val then b j else a j
/-- Select `_mm256_blend_pd`: slot `j` comes from `b` when `imm8[j]` is set, else from `a`. -/
def mm256_blend_pd (a b : m256d F) (imm8 : Nat) : m256d F := fun j =>
  if immBit imm8 j.val then b j else a j

/-- Unaligned load of `n` contiguous primitives starting at the head of `src`;
reading past the end of the array has no defined result. -/
def loadu (n : Nat) (src : List F) : Option (Fin n → F) :=
  if h : n ≤ src.length then some (fun j => src.get ⟨j.val, by omega⟩) else none

/-- Unaligned store of the `n` slots of a register to the first `n` elements
of `dest`; writing past the end of the array has no defined result. -/
def storeu {n : Nat} (dest : List F) (src : Fin n → F) : Option (List F) :=
  if n ≤ dest.length then some (List.ofFn src ++ dest.drop n) else none

def mm256_loadu_pd (src : List F) : Option (m256d F) := loadu 4 src
def mm256_storeu_pd (dest : List F) (src : m256d F) : Option (List F) := storeu dest src

def mm_loadu_ps (src : List F) : Option (m128 F) := loadu 4 src
def mm_storeu_ps (dest : List F) (src : m128 F) : Option (List F) := storeu dest src
def mm256_loadu_ps (src : List F) : Option (m256 F) := loadu 8 src
def mm256_storeu_ps (dest : List F) (src : m256 F) : Option (List F) := storeu dest src
def mm_loadu_pd (src : List F) : Option (m128d F) := loadu 2 src
def mm_storeu_pd (dest : List F) (src : m128d F) : Option (List F) := storeu dest src

/-- Constructor `_mm_setr_ps`: the arguments in slot order. -/
def mm_setr_ps (e0 e1 e2 e3 : F) : m128 F := fun j =>
  if j.val = 0 then e0 else if j.val = 1 then e1 else if j.val = 2 then e2 else e3
/-- Constructor `_mm256_setr_ps`: the arguments in slot order. -/
def mm256_setr_ps (e0 e1 e2 e3 e4 e5 e6 e7 : F) : m256 F := fun j =>
  if j.val = 0 then e0 else if j.val = 1 then e1 else if j.val = 2 then e2
  else if j.val = 3 then e3 else if j.val = 4 then e4 else if j.val = 5 then e5
  else if j.val = 6 then e6 else e7
/-- Constructor `_mm_setr_pd`: the arguments in slot order. -/
def mm_setr_pd (e0 e1 : F) : m128d F := fun j => if j.val = 0 then e0 else e1
/-- Constructor `_mm256_setr_pd`: the arguments in slot order. -/
def mm256_setr_pd (e0 e1 e2 e3 : F) : m256d F := fun j =>
  if j.val = 0 then e0 else if j.val = 1 then e1 else if j.val = 2 then e2 else e3

def mm_set1_ps (a : F) : m128 F := fun _ => a
def mm256_set1_ps (a : F) : m256 F := fun _ => a
def mm_set1_pd (a : F) : m128d F := fun _ => a
def mm256_set1_pd (a : F) : m256d F := fun _ => a

/-- Value of an `int` computation: the exact result wrapped to 32 bits in
two's complement. -/
def int32 (x : Int) : Int := (x + 2 ^ 31) % 2 ^ 32 - 2 ^ 31

/-- Element `src[i]` for a pointer `src` and an `int` index `i`, which may be
negative: the element `i` places from the pointee; outside the array there is
no defined result. -/
def cindex (src : complex_ptr F) (i : Int) : Option (complex F) :=
  if 0 ≤ (src.pos : Int) + i then src.array[((src.pos : Int) + i).toNat]? else none

end intrinsics

/-! ## Width 1: `pack<float, 1>` and `pack<double, 1>`

The `float` and the `double` overload of each width-1 operation have the same
body, so one definition embeds both. -/

section width1

variable {F : Type} [Field F]

/-- Complex addition `mm_add` on `pack<F, 1>`: `a + b`. -/
def mm_add_1 (a b : complex F) : complex F := complex.add a b
/-- Complex subtraction `mm_sub` on `pack<F, 1>`: `a - b`. -/
def mm_sub_1 (a b : complex F) : complex F := complex.sub a b
/-- Division `mm_div` on `pack<F, 1>`: `a / b.real()`. -/
def mm_div_1 (a b : complex F) : complex F := complex.divScalar a b.real
/-- Multiplication `mm_mul` on `pack<F, 1>`: `a * b.real()`. -/
def mm_mul_1 (a b : complex F) : complex F := complex.mulScalar a b.real
/-- Complex multiplication `mm_complex_mul` on `pack<F, 1>`: `a * b`. -/
def mm_complex_mul_1 (a b : complex F) : complex F := complex.mul a b
/-- Squared modulus `mm_complex_sq_mod` on `pack<F, 1>`: `norm(a)`, converted
to the complex return type. -/
def mm_complex_sq_mod_1 (a : complex F) : complex F := complex.ofReal (complex.norm a)
/-- Modulus `mm_complex_mod` on `pack<F, 1>`: `std::abs(a)`, a primitive. -/
def mm_complex_mod_1 (sqrt : F → F) (a : complex F) : F := complex.abs sqrt a
/-- Conjugation `mm_complex_conj` on `pack<F, 1>`: `conj(a)`. -/
def mm_complex_conj_1 (a : complex F) : complex F := complex.conj a
/-- Complex division `mm_complex_div` on `pack<F, 1>`: `a / b`. -/
def mm_complex_div_1 (a b : complex F) : complex F := complex.div a b

/-- Generic `mm_load<F, L>`: the complex value `{src[0], src[1]}`. -/
def mm_load_1 (src : List F) : Option (complex F) :=
  if h : 2 ≤ src.length then some ⟨src.get ⟨0, by omega⟩, src.get ⟨1, by omega⟩⟩ else none
/-- Generic `mm_store<F, L>`: `dest[0] = src.real(); dest[1] = src.imag();`. -/
def mm_store_1 (dest : List F) (src : complex F) : Option (List F) :=
  if 2 ≤ dest.length then some ((dest.set 0 src.real).set 1 src.imag) else none
/-- Generic `mm_pair_set<F, L>`: the complex value `(x, y)`. -/
def mm_pair_set_1 (x y : F) : complex F := ⟨x, y⟩
/-- Generic `mm_set1<F, L>`: the complex value `(src, src)`. -/
def mm_set1_1 (src : F) : complex F := ⟨src, src⟩
/-- Generic `mm_complex_load<F, L>(src)`: `*src`. -/
def mm_complex_load_unit_1 (src : complex_ptr F) : Option (complex F) := cindex src 0
/-- Generic `mm_complex_load<F, L>(src, int)`: `*src`, the stride is not read. -/
def mm_complex_load_1 (src : complex_ptr F) (_stride : Int) : Option (complex F) :=
  cindex src 0

end width1

/-! ## Vector packs -/

section vector

variable {F : Type} [Field F]

/-- Load `mm_load<double, 4>`: four doubles from `src`. -/
def mm_load_double_4 (src : List F) : Option (m256d F) := mm256_loadu_pd src
/-- Store `mm_store<double, 4>`: four doubles to `dest`. -/
def mm_store_double_4 (dest : List F) (src : m256d F) : Option (List F) :=
  mm256_storeu_pd dest src

def mm_load_float_4 (src : List F) : Option (m128 F) := mm_loadu_ps src
def mm_store_float_4 (dest : List F) (src : m128 F) : Option (List F) := mm_storeu_ps dest src
def mm_pair_set_float_4 (x y : F) : m128 F := mm_setr_ps x y x y
def mm_set1_float_4 (x : F) : m128 F := mm_set1_ps x
/-- Strided `mm_complex_load<float, 4>(src, stride)`: `src[0]` and `src[stride]`. -/
def mm_complex_load_float_4 (src : complex_ptr F) (stride : Int) : Option (m128 F) :=
  (cindex src 0).bind fun c0 => (cindex src stride).bind fun c1 =>
    some (mm_setr_ps c0.real c0.imag c1.real c1.imag)
def mm_complex_load_unit_float_4 (src : complex_ptr F) : Option (m128 F) :=
  mm_complex_load_float_4 src 1

def mm_load_float_8 (src : List F) : Option (m256 F) := mm256_loadu_ps src
def mm_store_float_8 (dest : List F) (src : m256 F) : Option (List F) := mm256_storeu_ps dest src
def mm_pair_set_float_8 (x y : F) : m256 F := mm256_setr_ps x y x y x y x y
def mm_set1_float_8 (x : F) : m256 F := mm256_set1_ps x
/-- Strided `mm_complex_load<float, 8>(src, stride)`: `src[0*stride]` to
`src[3*stride]`, the products computed in `int`. -/
def mm_complex_load_float_8 (src : complex_ptr F) (stride : Int) : Option (m256 F) :=
  (cindex src (int32 (0 * stride))).bind fun c0 =>
  (cindex src (int32 (1 * stride))).bind fun c1 =>
  (cindex src (int32 (2 * stride))).bind fun c2 =>
  (cindex src (int32 (3 * stride))).bind fun c3 =>
    some (mm256_setr_ps c0.real c0.imag c1.real c1.imag c2.real c2.imag c3.real c3.imag)
def mm_complex_load_unit_float_8 (src : complex_ptr F) : Option (m256 F) :=
  mm_complex_load_float_8 src 1

def mm_load_double_2 (src : List F) : Option (m128d F) := mm_loadu_pd src
def mm_store_double_2 (dest : List F) (src : m128d F) : Option (List F) := mm_storeu_pd dest src
def mm_pair_set_double_2 (x y : F) : m128d F := mm_setr_pd x y
def mm_set1_double_2 (x : F) : m128d F := mm_set1_pd x
/-- Load `mm_complex_load<double, 2>(src, int)`: `src[0]`, the stride is not read. -/
def mm_complex_load_double_2 (src : complex_ptr F) (_stride : Int) : Option (m128d F) :=
  (cindex src 0).bind fun c0 => some (mm_setr_pd c0.real c0.imag)
def mm_complex_load_unit_double_2 (src : complex_ptr F) : Option (m128d F) :=
  mm_complex_load_double_2 src 1

def mm_pair_set_double_4 (x y : F) : m256d F := mm256_setr_pd x y x y
def mm_set1_double_4 (x : F) : m256d F := mm256_set1_pd x
/-- Strided `mm_complex_load<double, 4>(src, stride)`: `src[0]` and `src[stride]`. -/
def mm_complex_load_double_4 (src : complex_ptr F) (stride : Int) : Option (m256d F) :=
  (cindex src 0).bind fun c0 => (cindex src stride).bind fun c1 =>
    some (mm256_setr_pd c0.real c0.imag c1.real c1.imag)
def mm_complex_load_unit_double_4 (src : complex_ptr F) : Option (m256d F) :=
  mm_complex_load_double_4 src 1

def mm_add_float_4 (x y : m128 F) : m128 F := mm_add_ps x y
def mm_add_float_8 (x y : m256 F) : m256 F := mm256_add_ps x y
def mm_add_double_2 (x y : m128d F) : m128d F := mm_add_pd x y
def mm_add_double_4 (x y : m256d F) : m256d F := mm256_add_pd x y

def mm_sub_float_4 (x y : m128 F) : m128 F := mm_sub_ps x y
def mm_sub_float_8 (x y : m256 F) : m256 F := mm256_sub_ps x y
def mm_sub_double_2 (x y : m128d F) : m128d F := mm_sub_pd x y
def mm_sub_double_4 (x y : m256d F) : m256d F := mm256_sub_pd x y

def mm_mul_float_4 (x y : m128 F) : m128 F := mm_mul_ps x y
def mm_mul_float_8 (x y : m256 F) : m256 F := mm256_mul_ps x y
def mm_mul_double_2 (x y : m128d F) : m128d F := mm_mul_pd x y
def mm_mul_double_4 (x y : m256d F) : m256d F := mm256_mul_pd x y

def mm_div_float_4 (x y : m128 F) : m128 F := mm_div_ps x y
def mm_div_float_8 (x y : m256 F) : m256 F := mm256_div_ps x y
def mm_div_double_2 (x y : m128d F) : m128d F := mm_div_pd x y
def mm_div_double_4 (x y : m256d F) : m256d F := mm256_div_pd x y

/-- Complex multiply two pairs of floats. -/
def mm_complex_mul_float_4 (x y : m128 F) : m128 F :=
  let cc := mm_permute_ps y 0b10100000
  let ba := mm_permute_ps x 0b10110001
  let dd := mm_permute_ps y 0b11110101
  let dba := mm_mul_ps ba dd
  let mult := mm_fmaddsub_ps x cc dba
  mult

/-- Complex multiply four pairs of floats. -/
def mm_complex_mul_float_8 (x y : m256 F) : m256 F :=
  let cc := mm256_permute_ps y 0b10100000
  let ba := mm256_permute_ps x 0b10110001
  let dd := mm256_permute_ps y 0b11110101
  let dba := mm256_mul_ps ba dd
  let mult := mm256_fmaddsub_ps x cc dba
  mult

/-- Complex multiply one pair of doubles. -/
def mm_complex_mul_double_2 (x y : m128d F) : m128d F :=
  let cc := mm_permute_pd y 0
  let ba := mm_permute_pd x 0b01
  let dd := mm_permute_pd y 0b11
  let dba := mm_mul_pd ba dd
  let mult := mm_fmaddsub_pd x cc dba
  mult

/-- Complex multiply two pairs of doubles. -/
def mm_complex_mul_double_4 (x y : m256d F) : m256d F :=
  let cc := mm256_permute_pd y 0b0000
  let ba := mm256_permute_pd x 0b0101
  let dd := mm256_permute_pd y 0b1111
  let dba := mm256_mul_pd ba dd
  let mult := mm256_fmaddsub_pd x cc dba
  mult

/-- Squared modulus of two single precision complex numbers in a pack. -/
def mm_complex_sq_mod_float_4 (B : BitOr F) (x : m128 F) : m128 F :=
  mm_or_ps B (mm_dp_ps x x 0b11001100) (mm_dp_ps x x 0b00110011)

/-- Squared modulus of four single precision complex numbers in a pack. -/
def mm_complex_sq_mod_float_8 (B : BitOr F) (x : m256 F) : m256 F :=
  mm256_or_ps B (mm256_dp_ps x x 0b11001100) (mm256_dp_ps x x 0b00110011)

/-- Squared modulus of one double precision complex number in a pack. -/
def mm_complex_sq_mod_double_2 (x : m128d F) : m128d F :=
  mm_dp_pd x x 0b11111111

/-- Squared modulus of two double precision complex numbers in a pack. -/
def mm_complex_sq_mod_double_4 (x : m256d F) : m256d F :=
  let a := mm256_mul_pd x x
  mm256_hadd_pd a a

def mm_complex_mod_float_4 (sqrt : F → F) (B : BitOr F) (x : m128 F) : m128 F :=
  mm_sqrt_ps sqrt (mm_complex_sq_mod_float_4 B x)
def mm_complex_mod_float_8 (sqrt : F → F) (B : BitOr F) (x : m256 F) : m256 F :=
  mm256_sqrt_ps sqrt (mm_complex_sq_mod_float_8 B x)
def mm_complex_mod_double_2 (sqrt : F → F) (x : m128d F) : m128d F :=
  mm_sqrt_pd sqrt (mm_complex_sq_mod_double_2 x)
def mm_complex_mod_double_4 (sqrt : F → F) (x : m256d F) : m256d F :=
  mm256_sqrt_pd sqrt (mm_complex_sq_mod_double_4 x)

def mm_complex_conj_float_4 (x : m128 F) : m128 F := mm_blend_ps x (vneg x) 0b1010
def mm_complex_conj_float_8 (x : m256 F) : m256 F := mm256_blend_ps x (vneg x) 0b10101010
def mm_complex_conj_double_2 (x : m128d F) : m128d F := mm_blend_pd x (vneg x) 0b10
def mm_complex_conj_double_4 (x : m256d F) : m256d F := mm256_blend_pd x (vneg x) 0b1010

def mm_complex_div_float_4 (B : BitOr F) (x y : m128 F) : m128 F :=
  mm_div_ps (mm_complex_mul_float_4 x (mm_complex_conj_float_4 y)) (mm_complex_sq_mod_float_4 B y)
def mm_complex_div_float_8 (B : BitOr F) (x y : m256 F) : m256 F :=
  mm256_div_ps (mm_complex_mul_float_8 x (mm_complex_conj_float_8 y))
    (mm_complex_sq_mod_float_8 B y)
def mm_complex_div_double_2 (x y : m128d F) : m128d F :=
  mm_div_pd (mm_complex_mul_double_2 x (mm_complex_conj_double_2 y)) (mm_complex_sq_mod_double_2 y)
def mm_complex_div_double_4 (x y : m256d F) : m256d F :=
  mm256_div_pd (mm_complex_mul_double_4 x (mm_complex_conj_double_4 y))
    (mm_complex_sq_mod_double_4 y)

end vector

/-! ## Overload resolution by pack type -/

/-- The specialisations of `pack<T, N>` that define a `type`. -/
inductive PackType where
  | float_1 | double_1 | float_4 | float_8 | double_2 | double_4
deriving DecidableEq

/-- Number of complex numbers a pack of the given type holds. -/
def PackType.lanes : PackType → Nat
  | .float_1 => 1 | .double_1 => 1
  | .float_4 => 2 | .float_8 => 4 | .double_2 => 1 | .double_4 => 2

/-- Whether the pack type is one of the AVX register specialisations. -/
def PackType.isVector : PackType → Bool
  | .float_1 => false | .double_1 => false
  | _ => true

/-- The member `pack<T, N>::type`. -/
def pack (F : Type) : PackType → Type
  | .float_1 => complex F | .double_1 => complex F
  | .float_4 => m128 F | .float_8 => m256 F | .double_2 => m128d F | .double_4 => m256d F

section dispatch

variable {F : Type} [Field F]

/-- Primitive slot `i` of a pack in its memory layout (real part of a
`std::complex` first, imaginary part second). -/
def slot : (p : PackType) → pack F p → Fin (2 * p.lanes) → F
  | .float_1, a, i => if i.val = 0 then a.real else a.imag
  | .double_1, a, i => if i.val = 0 then a.real else a.imag
  | .float_4, x, i => x i
  | .float_8, x, i => x i
  | .double_2, x, i => x i
  | .double_4, x, i => x i

/-- Real slot `2k` of complex position `k`. -/
def re (p : PackType) (a : pack F p) (k : Fin p.lanes) : F := slot p a ⟨2 * k.val, by omega⟩
/-- Imaginary slot `2k+1` of complex position `k`. -/
def im (p : PackType) (a : pack F p) (k : Fin p.lanes) : F := slot p a ⟨2 * k.val + 1, by omega⟩

/-- The complex number at position `k` of a pack. -/
def lane (p : PackType) (a : pack F p) (k : Fin p.lanes) : complex F := ⟨re p a k, im p a k⟩

def mm_add : (p : PackType) → pack F p → pack F p → pack F p
  | .float_1, a, b => mm_add_1 a b
  | .double_1, a, b => mm_add_1 a b
  | .float_4, x, y => mm_add_float_4 x y
  | .float_8, x, y => mm_add_float_8 x y
  | .double_2, x, y => mm_add_double_2 x y
  | .double_4, x, y => mm_add_double_4 x y

def mm_sub : (p : PackType) → pack F p → pack F p → pack F p
  | .float_1, a, b => mm_sub_1 a b
  | .double_1, a, b => mm_sub_1 a b
  | .float_4, x, y => mm_sub_float_4 x y
  | .float_8, x, y => mm_sub_float_8 x y
  | .double_2, x, y => mm_sub_double_2 x y
  | .double_4, x, y => mm_sub_double_4 x y

def mm_mul : (p : PackType) → pack F p → pack F p → pack F p
  | .float_1, a, b => mm_mul_1 a b
  | .double_1, a, b => mm_mul_1 a b
  | .float_4, x, y => mm_mul_float_4 x y
  | .float_8, x, y => mm_mul_float_8 x y
  | .double_2, x, y => mm_mul_double_2 x y
  | .double_4, x, y => mm_mul_double_4 x y

def mm_div : (p : PackType) → pack F p → pack F p → pack F p
  | .float_1, a, b => mm_div_1 a b
  | .double_1, a, b => mm_div_1 a b
  | .float_4, x, y => mm_div_float_4 x y
  | .float_8, x, y => mm_div_float_8 x y
  | .double_2, x, y => mm_div_double_2 x y
  | .double_4, x, y => mm_div_double_4 x y

def mm_complex_mul : (p : PackType) → pack F p → pack F p → pack F p
  | .float_1, a, b => mm_complex_mul_1 a b
  | .double_1, a, b => mm_complex_mul_1 a b
  | .float_4, x, y => mm_complex_mul_float_4 x y
  | .float_8, x, y => mm_complex_mul_float_8 x y
  | .double_2, x, y => mm_complex_mul_double_2 x y
  | .double_4, x, y => mm_complex_mul_double_4 x y

def mm_complex_sq_mod (B : BitOr F) : (p : PackType) → pack F p → pack F p
  | .float_1, a => mm_complex_sq_mod_1 a
  | .double_1, a => mm_complex_sq_mod_1 a
  | .float_4, x => mm_complex_sq_mod_float_4 B x
  | .float_8, x => mm_complex_sq_mod_float_8 B x
  | .double_2, x => mm_complex_sq_mod_double_2 x
  | .double_4, x => mm_complex_sq_mod_double_4 x

def mm_complex_conj : (p : PackType) → pack F p → pack F p
  | .float_1, a => mm_complex_conj_1 a
  | .double_1, a => mm_complex_conj_1 a
  | .float_4, x => mm_complex_conj_float_4 x
  | .float_8, x => mm_complex_conj_float_8 x
  | .double_2, x => mm_complex_conj_double_2 x
  | .double_4, x => mm_complex_conj_double_4 x

def mm_complex_div (B : BitOr F) : (p : PackType) → pack F p → pack F p → pack F p
  | .float_1, a, b => mm_complex_div_1 a b
  | .double_1, a, b => mm_complex_div_1 a b
  | .float_4, x, y => mm_complex_div_float_4 B x y
  | .float_8, x, y => mm_complex_div_float_8 B x y
  | .double_2, x, y => mm_complex_div_double_2 x y
  | .double_4, x, y => mm_complex_div_double_4 x y

def mm_load : (p : PackType) → List F → Option (pack F p)
  | .float_1, src => mm_load_1 src
  | .double_1, src => mm_load_1 src
  | .float_4, src => mm_load_float_4 src
  | .float_8, src => mm_load_float_8 src
  | .double_2, src => mm_load_double_2 src
  | .double_4, src => mm_load_double_4 src

def mm_store : (p : PackType) → List F → pack F p → Option (List F)
  | .float_1, dest, src => mm_store_1 dest src
  | .double_1, dest, src => mm_store_1 dest src
  | .float_4, dest, src => mm_store_float_4 dest src
  | .float_8, dest, src => mm_store_float_8 dest src
  | .double_2, dest, src => mm_store_double_2 dest src
  | .double_4, dest, src => mm_store_double_4 dest src

def mm_pair_set : (p : PackType) → F → F → pack F p
  | .float_1, x, y => mm_pair_set_1 x y
  | .double_1, x, y => mm_pair_set_1 x y
  | .float_4, x, y => mm_pair_set_float_4 x y
  | .float_8, x, y => mm_pair_set_float_8 x y
  | .double_2, x, y => mm_pair_set_double_2 x y
  | .double_4, x, y => mm_pair_set_double_4 x y

def mm_set1 : (p : PackType) → F → pack F p
  | .float_1, x => mm_set1_1 x
  | .double_1, x => mm_set1_1 x
  | .float_4, x => mm_set1_float_4 x
  | .float_8, x => mm_set1_float_8 x
  | .double_2, x => mm_set1_double_2 x
  | .double_4, x => mm_set1_double_4 x

/-- The overload `mm_complex_load(src, stride)`. -/
def mm_complex_load : (p : PackType) → complex_ptr F → Int → Option (pack F p)
  | .float_1, src, stride => mm_complex_load_1 src stride
  | .double_1, src, stride => mm_complex_load_1 src stride
  | .float_4, src, stride => mm_complex_load_float_4 src stride
  | .float_8, src, stride => mm_complex_load_float_8 src stride
  | .double_2, src, stride => mm_complex_load_double_2 src stride
  | .double_4, src, stride => mm_complex_load_double_4 src stride

/-- The overload `mm_complex_load(src)` without a stride. -/
def mm_complex_load_unit : (p : PackType) → complex_ptr F → Option (pack F p)
  | .float_1, src => mm_complex_load_unit_1 src
  | .double_1, src => mm_complex_load_unit_1 src
  | .float_4, src => mm_complex_load_unit_float_4 src
  | .float_8, src => mm_complex_load_unit_float_8 src
  | .double_2, src => mm_complex_load_unit_double_2 src
  | .double_4, src => mm_complex_load_unit_double_4 src

end dispatch

/-! ## Pack descriptor -/

/-- The primitive types for which `pack<T, N>` has specialisations. -/
inductive Precision where
  | float | double
deriving DecidableEq

/-- The C++ types named by the member `type` of the specialisations of `pack`. -/
inductive RegisterType where
  | complex_float | complex_double | m128 | m256 | m128d | m256d
deriving DecidableEq

/-- The template `pack<T, N>` as a map to the member `type`: the primary
template is an empty struct, the two width-1 specialisations are always
present, the four vector specialisations only when `__AVX__` is defined. -/
def pack_type (avx : Bool) (T : Precision) (N : Int) : Option RegisterType :=
  match T with
  | .float =>
    if N = 1 then some .complex_float
    else if avx = true ∧ N = 4 then some .m128
    else if avx = true ∧ N = 8 then some .m256
    else none
  | .double =>
    if N = 1 then some .complex_double
    else if avx = true ∧ N = 2 then some .m128d
    else if avx = true ∧ N = 4 then some .m256d
    else none

/-- The first template argument of a pack type. -/
def PackType.precision : PackType → Precision
  | .float_1 => .float | .float_4 => .float | .float_8 => .float
  | .double_1 => .double | .double_2 => .double | .double_4 => .double

/-- The second template argument of a pack type. -/
def PackType.width : PackType → Int
  | .float_1 => 1 | .double_1 => 1
  | .float_4 => 4 | .float_8 => 8 | .double_2 => 2 | .double_4 => 4

/-- The C++ type behind a pack type. -/
def PackType.register : PackType → RegisterType
  | .float_1 => .complex_float | .double_1 => .complex_double
  | .float_4 => .m128 | .float_8 => .m256 | .double_2 => .m128d | .double_4 => .m256d

/-- The arithmetic and complex operations on packs. -/
inductive Operation where
  | mm_add | mm_sub | mm_mul | mm_div | mm_complex_mul | mm_complex_div
  | mm_complex_conj | mm_complex_sq_mod | mm_complex_mod
deriving DecidableEq

/-- What an operation hands back: one primitive, or a pack. -/
inductive ValueType where
  | primitive (T : Precision)
  | packed (p : PackType)
deriving DecidableEq

/-- Declared return type of each operation on each pack type: the pack type of
the operands, except that the width-1 overloads of `mm_complex_mod` are
declared `float` and `double`. -/
def return_type : Operation → PackType → ValueType
  | .mm_complex_mod, .float_1 => .primitive .float
  | .mm_complex_mod, .double_1 => .primitive .double
  | _, p => .packed p

/-- Primitive type of a value. -/
def ValueType.precision : ValueType → Precision
  | .primitive T => T
  | .packed p => p.precision

/-- Number of primitives a value holds. -/
def ValueType.slots : ValueType → Nat
  | .primitive _ => 1
  | .packed p => 2 * p.lanes

/-- Carrier of a value type in the exact model. -/
def ValueType.carrier (F : Type) : ValueType → Type
  | .primitive _ => F
  | .packed p => pack F p

/-- The operation `mm_complex_mod` over all pack types, typed by its declared
return type. -/
def mm_complex_mod {F : Type} [Field F] (sqrt : F → F) (B : BitOr F) :
    (p : PackType) → pack F p → ValueType.carrier F (return_type .mm_complex_mod p)
  | .float_1, a => (mm_complex_mod_1 sqrt a : F)
  | .double_1, a => (mm_complex_mod_1 sqrt a : F)
  | .float_4, x => mm_complex_mod_float_4 sqrt B x
  | .float_8, x => mm_complex_mod_float_8 sqrt B x
  | .double_2, x => mm_complex_mod_double_2 sqrt x
  | .double_4, x => mm_complex_mod_double_4 sqrt x

/-! ## Multiplication in binary64

The double precision product with its rounding, on the normal range, and the
two forms of `mm_mul` on `double` over it. -/

/-- A finite, non-zero binary64 value `(-1)^sign * mant * 2^exp`. -/
structure binary64 where
  sign : Bool
  mant : Nat
  exp : Int
deriving DecidableEq

/-- A normal value: a 53-bit significand with the leading bit set and an
exponent between those of the smallest and the largest normal number. -/
def binary64.normal (a : binary64) : Bool :=
  2 ^ 52 ≤ a.mant ∧ a.mant < 2 ^ 53 ∧ -1074 ≤ a.exp ∧ a.exp ≤ 971

/-- Drop the low `s` bits of `m`, rounding to nearest with ties to even. -/
def round_shift (m s : Nat) : Nat :=
  let q := m / 2 ^ s
  let r := m % 2 ^ s
  let half := 2 ^ (s - 1)
  if half < r ∨ (r = half ∧ q % 2 = 1) then q + 1 else q

/-- Product of two normal binary64 values under round to nearest, ties to
even; there is no result here when an operand or the product is outside the
normal range. -/
def binary64.mul (a b : binary64) : Option binary64 :=
  let m := a.mant * b.mant
  let s : Nat := if m < 2 ^ 105 then 52 else 53
  let q := round_shift m s
  let r : binary64 :=
    if q = 2 ^ 53 then ⟨xor a.sign b.sign, 2 ^ 52, a.exp + b.exp + (s : Int) + 1⟩
    else ⟨xor a.sign b.sign, q, a.exp + b.exp + (s : Int)⟩
  if a.normal = true ∧ b.normal = true ∧ r.normal = true then some r else none

/-- Product `_mm_mul_pd` on a register of two binary64 values. -/
def mm_mul_pd_binary64 (a b : Fin 2 → binary64) : Fin 2 → Option binary64 :=
  fun j => (a j).mul (b j)
/-- Constructor `_mm_setr_pd` on binary64 values. -/
def mm_setr_pd_binary64 (e0 e1 : binary64) : Fin 2 → binary64 :=
  fun j => if j.val = 0 then e0 else e1
/-- Multiplication `mm_mul` on `pack<double, 2>` in binary64. -/
def mm_mul_double_2_binary64 (x y : Fin 2 → binary64) : Fin 2 → Option binary64 :=
  mm_mul_pd_binary64 x y
/-- Constructor `mm_pair_set<double, 2>` in binary64. -/
def mm_pair_set_double_2_binary64 (x y : binary64) : Fin 2 → binary64 :=
  mm_setr_pd_binary64 x y
/-- Multiplication `mm_mul` on `pack<double, 1>` in binary64: `a * b.real()`. -/
def mm_mul_1_binary64 (a b : complex binary64) : complex (Option binary64) :=
  ⟨a.real.mul b.real, a.imag.mul b.real⟩
/-- Generic `mm_pair_set<double, 1>` in binary64: the complex value `(x, y)`. -/
def mm_pair_set_1_binary64 (x y : binary64) : complex binary64 := ⟨x, y⟩

/-! ## Theorems -/

section theorems

variable {F : Type}

/-- Index literals of a four-slot register. -/
theorem fin4_lit : (∀ h, (⟨0, h⟩ : Fin 4) = 0) ∧ (∀ h, (⟨1, h⟩ : Fin 4) = 1) ∧
    (∀ h, (⟨2, h⟩ : Fin 4) = 2) ∧ (∀ h, (⟨3, h⟩ : Fin 4) = 3) :=
  ⟨fun _ => rfl, fun _ => rfl, fun _ => rfl, fun _ => rfl⟩

/-- Index literals of a two-slot register. -/
theorem fin2_lit : (∀ h, (⟨0, h⟩ : Fin 2) = 0) ∧ (∀ h, (⟨1, h⟩ : Fin 2) = 1) :=
  ⟨fun _ => rfl, fun _ => rfl⟩

/-- Index literals of an eight-slot register. -/
theorem fin8_lit : (∀ h, (⟨0, h⟩ : Fin 8) = 0) ∧ (∀ h, (⟨1, h⟩ : Fin 8) = 1) ∧
    (∀ h, (⟨2, h⟩ : Fin 8) = 2) ∧ (∀ h, (⟨3, h⟩ : Fin 8) = 3) ∧
    (∀ h, (⟨4, h⟩ : Fin 8) = 4) ∧ (∀ h, (⟨5, h⟩ : Fin 8) = 5) ∧
    (∀ h, (⟨6, h⟩ : Fin 8) = 6) ∧ (∀ h, (⟨7, h⟩ : Fin 8) = 7) :=
  ⟨fun _ => rfl, fun _ => rfl, fun _ => rfl, fun _ => rfl,
   fun _ => rfl, fun _ => rfl, fun _ => rfl, fun _ => rfl⟩

/-- Values of the index literals. -/
theorem fin_lit_val : ((2 : Fin 4) : Nat) = 2 ∧ ((3 : Fin 4) : Nat) = 3 ∧
    ((2 : Fin 8) : Nat) = 2 ∧ ((3 : Fin 8) : Nat) = 3 ∧ ((4 : Fin 8) : Nat) = 4 ∧
    ((5 : Fin 8) : Nat) = 5 ∧ ((6 : Fin 8) : Nat) = 6 ∧ ((7 : Fin 8) : Nat) = 7 :=
  ⟨rfl, rfl, rfl, rfl, rfl, rfl, rfl, rfl⟩

/-- Every slot is the real or the imaginary slot of its complex position. -/
theorem slot_eq_re_im [Field F] (p : PackType) (a : pack F p) (i : Fin (2 * p.lanes)) :
    slot p a i = if i.val % 2 = 0 then re p a ⟨i.val / 2, by omega⟩
      else im p a ⟨i.val / 2, by omega⟩ := by
  have hi := i.isLt
  by_cases h : i.val % 2 = 0
  · rw [if_pos h]
    unfold re
    congr 1
    apply Fin.ext
    show i.val = 2 * (i.val / 2)
    omega
  · rw [if_neg h]
    unfold im
    congr 1
    apply Fin.ext
    show i.val = 2 * (i.val / 2) + 1
    omega

/-- Two packs with the same slots are the same pack. -/
theorem pack_ext [Field F] (p : PackType) (a b : pack F p)
    (h : ∀ i, slot p a i = slot p b i) : a = b := by
  cases p
  · have h0 := h ⟨0, by decide⟩
    have h1 := h ⟨1, by decide⟩
    simp [slot] at h0 h1
    exact complex.ext h0 h1
  · have h0 := h ⟨0, by decide⟩
    have h1 := h ⟨1, by decide⟩
    simp [slot] at h0 h1
    exact complex.ext h0 h1
  · exact funext h
  · exact funext h
  · exact funext h
  · exact funext h

/-- The two slots of each complex position of `mm_complex_mul`. -/
theorem complex_mul_lane [Field F] (p : PackType) (a b : pack F p) (k : Fin p.lanes) :
    re p (mm_complex_mul p a b) k = re p a k * re p b k - im p a k * im p b k ∧
    im p (mm_complex_mul p a b) k = re p a k * im p b k + im p a k * re p b k := by
  cases p
  · simp [re, im, slot, mm_complex_mul, mm_complex_mul_1, complex.mul]
  · simp [re, im, slot, mm_complex_mul, mm_complex_mul_1, complex.mul]
  · change Fin 2 at k
    fin_cases k <;>
    simp [re, im, slot, mm_complex_mul, mm_complex_mul_float_4, mm_fmaddsub_ps, mm_mul_ps,
      mm_permute_ps, fin4_lit, fin_lit_val] <;> ring_nf
  · change Fin 4 at k
    fin_cases k <;>
    simp [re, im, slot, mm_complex_mul, mm_complex_mul_float_8, mm256_fmaddsub_ps, mm256_mul_ps,
      mm256_permute_ps, mm_permute_ps, join_ps, lo_ps, hi_ps, fin4_lit, fin8_lit, fin_lit_val] <;>
    ring_nf
  · change Fin 1 at k
    fin_cases k
    simp [re, im, slot, mm_complex_mul, mm_complex_mul_double_2, mm_fmaddsub_pd, mm_mul_pd,
      mm_permute_pd, immBit, fin2_lit, fin_lit_val]
    ring_nf
  · change Fin 2 at k
    fin_cases k <;>
    simp [re, im, slot, mm_complex_mul, mm_complex_mul_double_4, mm256_fmaddsub_pd, mm256_mul_pd,
      mm256_permute_pd, immBit, fin4_lit, fin_lit_val] <;> ring_nf

/-- The two slots of each complex position of `mm_complex_conj`. -/
theorem complex_conj_lane [Field F] (p : PackType) (a : pack F p) (k : Fin p.lanes) :
    re p (mm_complex_conj p a) k = re p a k ∧ im p (mm_complex_conj p a) k = - im p a k := by
  cases p
  · simp [re, im, slot, mm_complex_conj, mm_complex_conj_1, complex.conj]
  · simp [re, im, slot, mm_complex_conj, mm_complex_conj_1, complex.conj]
  · change Fin 2 at k
    fin_cases k <;>
    simp [re, im, slot, mm_complex_conj, mm_complex_conj_float_4, mm_blend_ps, vneg, immBit,
      fin4_lit, fin_lit_val]
  · change Fin 4 at k
    fin_cases k <;>
    simp [re, im, slot, mm_complex_conj, mm_complex_conj_float_8, mm256_blend_ps, vneg, immBit,
      fin8_lit, fin_lit_val]
  · change Fin 1 at k
    fin_cases k
    simp [re, im, slot, mm_complex_conj, mm_complex_conj_double_2, mm_blend_pd, vneg, immBit,
      fin2_lit, fin_lit_val]
  · change Fin 2 at k
    fin_cases k <;>
    simp [re, im, slot, mm_complex_conj, mm_complex_conj_double_4, mm256_blend_pd, vneg, immBit,
      fin4_lit, fin_lit_val]

/-- The two slots of each complex position of `mm_complex_sq_mod`: the real
slot holds the squared modulus; the imaginary slot holds it too in a vector
pack and holds zero at width 1. -/
theorem complex_sq_mod_lane [Field F] (B : BitOr F) (p : PackType) (a : pack F p)
    (k : Fin p.lanes) :
    re p (mm_complex_sq_mod B p a) k = re p a k * re p a k + im p a k * im p a k ∧
    im p (mm_complex_sq_mod B p a) k =
      if p.isVector then re p a k * re p a k + im p a k * im p a k else 0 := by
  cases p
  · simp [re, im, slot, mm_complex_sq_mod, mm_complex_sq_mod_1, complex.ofReal, complex.norm,
      PackType.isVector]
  · simp [re, im, slot, mm_complex_sq_mod, mm_complex_sq_mod_1, complex.ofReal, complex.norm,
      PackType.isVector]
  · change Fin 2 at k
    fin_cases k <;>
    simp [re, im, slot, mm_complex_sq_mod, mm_complex_sq_mod_float_4, mm_or_ps, mm_dp_ps, immBit,
      B.zero_or, B.or_zero, PackType.isVector, fin4_lit, fin_lit_val] <;> ring_nf
  · change Fin 4 at k
    fin_cases k <;>
    simp [re, im, slot, mm_complex_sq_mod, mm_complex_sq_mod_float_8, mm256_or_ps, mm256_dp_ps,
      mm_dp_ps, join_ps, lo_ps, hi_ps, immBit, B.zero_or, B.or_zero, PackType.isVector,
      fin4_lit, fin8_lit, fin_lit_val] <;> ring_nf
  · change Fin 1 at k
    fin_cases k
    simp [re, im, slot, mm_complex_sq_mod, mm_complex_sq_mod_double_2, mm_dp_pd, immBit,
      PackType.isVector, fin2_lit, fin_lit_val]
    ring_nf
  · change Fin 2 at k
    fin_cases k <;>
    simp [re, im, slot, mm_complex_sq_mod, mm_complex_sq_mod_double_4, mm256_hadd_pd,
      mm256_mul_pd, PackType.isVector, fin4_lit, fin_lit_val] <;> ring_nf

/-- Slots of `mm_add` and `mm_sub`, for every pack type. -/
theorem add_sub_slot [Field F] (p : PackType) (x y : pack F p) (i : Fin (2 * p.lanes)) :
    slot p (mm_add p x y) i = slot p x i + slot p y i ∧
    slot p (mm_sub p x y) i = slot p x i - slot p y i := by
  cases p
  · by_cases h : i.val = 0 <;>
    simp [slot, mm_add, mm_sub, mm_add_1, mm_sub_1, complex.add, complex.sub, h]
  · by_cases h : i.val = 0 <;>
    simp [slot, mm_add, mm_sub, mm_add_1, mm_sub_1, complex.add, complex.sub, h]
  · exact ⟨rfl, rfl⟩
  · exact ⟨rfl, rfl⟩
  · exact ⟨rfl, rfl⟩
  · exact ⟨rfl, rfl⟩

/-- Slots of `mm_mul` and `mm_div` on the vector pack types. -/
theorem mul_div_slot_vector [Field F] (p : PackType) (hv : p.isVector = true) (x y : pack F p)
    (i : Fin (2 * p.lanes)) :
    slot p (mm_mul p x y) i = slot p x i * slot p y i ∧
    slot p (mm_div p x y) i = slot p x i / slot p y i := by
  cases p
  · simp [PackType.isVector] at hv
  · simp [PackType.isVector] at hv
  · exact ⟨rfl, rfl⟩
  · exact ⟨rfl, rfl⟩
  · exact ⟨rfl, rfl⟩
  · exact ⟨rfl, rfl⟩

/-- The two slots of each complex position of `mm_mul` and `mm_div`: at
width 1 the imaginary slot is scaled by the real slot of the second operand. -/
theorem mul_div_lane [Field F] (p : PackType) (a b : pack F p) (k : Fin p.lanes) :
    (re p (mm_mul p a b) k = re p a k * re p b k ∧
     im p (mm_mul p a b) k = im p a k * (if p.isVector then im p b k else re p b k)) ∧
    (re p (mm_div p a b) k = re p a k / re p b k ∧
     im p (mm_div p a b) k = im p a k / (if p.isVector then im p b k else re p b k)) := by
  cases p
  · simp [re, im, slot, mm_mul, mm_div, mm_mul_1, mm_div_1, complex.mulScalar,
      complex.divScalar, PackType.isVector]
  · simp [re, im, slot, mm_mul, mm_div, mm_mul_1, mm_div_1, complex.mulScalar,
      complex.divScalar, PackType.isVector]
  · exact ⟨⟨rfl, rfl⟩, ⟨rfl, rfl⟩⟩
  · exact ⟨⟨rfl, rfl⟩, ⟨rfl, rfl⟩⟩
  · exact ⟨⟨rfl, rfl⟩, ⟨rfl, rfl⟩⟩
  · exact ⟨⟨rfl, rfl⟩, ⟨rfl, rfl⟩⟩

/-- The division `mm_complex_div` is, for every pack type, `mm_div` of the
product with the conjugate by the squared modulus. -/
theorem complex_div_unfold [Field F] (B : BitOr F) (p : PackType) (a b : pack F p) :
    mm_complex_div B p a b =
      mm_div p (mm_complex_mul p a (mm_complex_conj p b)) (mm_complex_sq_mod B p b) := by
  cases p
  · apply complex.ext <;>
    simp [mm_complex_div, mm_div, mm_complex_mul, mm_complex_conj, mm_complex_sq_mod,
      mm_complex_div_1, mm_div_1, mm_complex_mul_1, mm_complex_conj_1, mm_complex_sq_mod_1,
      complex.div, complex.divScalar, complex.mul, complex.conj, complex.ofReal, sub_eq_add_neg,
      add_comm]
  · apply complex.ext <;>
    simp [mm_complex_div, mm_div, mm_complex_mul, mm_complex_conj, mm_complex_sq_mod,
      mm_complex_div_1, mm_div_1, mm_complex_mul_1, mm_complex_conj_1, mm_complex_sq_mod_1,
      complex.div, complex.divScalar, complex.mul, complex.conj, complex.ofReal, sub_eq_add_neg,
      add_comm]
  · rfl
  · rfl
  · rfl
  · rfl

/-- The two slots of each complex position of `mm_complex_div`. -/
theorem complex_div_lane [Field F] (B : BitOr F) (p : PackType) (a b : pack F p)
    (k : Fin p.lanes) :
    re p (mm_complex_div B p a b) k =
      (re p a k * re p b k + im p a k * im p b k) /
        (re p b k * re p b k + im p b k * im p b k) ∧
    im p (mm_complex_div B p a b) k =
      (im p a k * re p b k - re p a k * im p b k) /
        (re p b k * re p b k + im p b k * im p b k) := by
  have hm := complex_mul_lane p a (mm_complex_conj p b) k
  have hc := complex_conj_lane p b k
  have hs := complex_sq_mod_lane B p b k
  have hd := (mul_div_lane p (mm_complex_mul p a (mm_complex_conj p b))
    (mm_complex_sq_mod B p b) k).2
  rw [complex_div_unfold, hd.1, hd.2, hm.1, hm.2, hc.1, hc.2, hs.1, hs.2]
  constructor
  · congr 1
    ring
  · cases p <;> simp [PackType.isVector] <;> congr 1 <;> ring

/-- Every slot of `mm_complex_sq_mod` is non-negative over an ordered field. -/
theorem complex_sq_mod_slot_nonneg [LinearOrderedField F] (B : BitOr F) (p : PackType)
    (a : pack F p) (i : Fin (2 * p.lanes)) : 0 ≤ slot p (mm_complex_sq_mod B p a) i := by
  rw [slot_eq_re_im]
  split
  · rw [(complex_sq_mod_lane B p a _).1]
    nlinarith [mul_self_nonneg (re p a ⟨i.val / 2, by omega⟩),
      mul_self_nonneg (im p a ⟨i.val / 2, by omega⟩)]
  · rw [(complex_sq_mod_lane B p a _).2]
    split
    · nlinarith [mul_self_nonneg (re p a ⟨i.val / 2, by omega⟩),
        mul_self_nonneg (im p a ⟨i.val / 2, by omega⟩)]
    · exact le_refl 0

/-! ### Claims -/

/-- C1: for every pack type and all packs `a`, `b`, `mm_complex_mul a b` holds
at every complex position `k` the pair
`(Re a_k Re b_k - Im a_k Im b_k, Re a_k Im b_k + Im a_k Re b_k)` in slots
`(2k, 2k+1)`; and on the double pack with two complex numbers, loading
`[1,2,3,4]` and `[5,6,7,8]`, multiplying and storing gives `[-7,16,-11,52]`. -/
theorem mm_complex_mul_is_complex_product [Field F] :
    (∀ (p : PackType) (a b : pack F p) (k : Fin p.lanes),
      slot p (mm_complex_mul p a b) ⟨2 * k.val, by omega⟩ =
        re p a k * re p b k - im p a k * im p b k ∧
      slot p (mm_complex_mul p a b) ⟨2 * k.val + 1, by omega⟩ =
        re p a k * im p b k + im p a k * re p b k) ∧
    (mm_load_double_4 [1, 2, 3, 4]).bind (fun x =>
      (mm_load_double_4 [5, 6, 7, 8]).bind (fun y =>
        mm_store_double_4 [0, 0, 0, 0] (mm_complex_mul .double_4 x y))) =
      some ([-7, 16, -11, 52] : List F) := by
  refine ⟨fun p a b k => complex_mul_lane p a b k, ?_⟩
  simp [mm_load_double_4, mm_store_double_4, mm256_loadu_pd, mm256_storeu_pd, loadu, storeu,
    mm_complex_mul, mm_complex_mul_double_4, mm256_fmaddsub_pd, mm256_mul_pd, mm256_permute_pd,
    immBit, List.ofFn_succ, fin4_lit, fin_lit_val]
  norm_num

/-- C2: for every pack type and all packs `a`, `b` such that every complex
number of `b` has positive squared modulus, `mm_complex_div (mm_complex_mul a b) b`
equals `a` in every slot. -/
theorem mm_complex_div_inverts_mm_complex_mul [LinearOrderedField F] (B : BitOr F)
    (p : PackType) (a b : pack F p)
    (hb : ∀ k : Fin p.lanes, 0 < re p b k ^ 2 + im p b k ^ 2) (i : Fin (2 * p.lanes)) :
    slot p (mm_complex_div B p (mm_complex_mul p a b) b) i = slot p a i := by
  have key : ∀ k : Fin p.lanes,
      re p (mm_complex_div B p (mm_complex_mul p a b) b) k = re p a k ∧
      im p (mm_complex_div B p (mm_complex_mul p a b) b) k = im p a k := by
    intro k
    have hd := complex_div_lane B p (mm_complex_mul p a b) b k
    have hm := complex_mul_lane p a b k
    have hn : re p b k * re p b k + im p b k * im p b k ≠ 0 := by
      have := hb k
      nlinarith
    rw [hd.1, hd.2, hm.1, hm.2]
    constructor
    · field_simp
      ring
    · field_simp
      ring
  rw [slot_eq_re_im p _ i, slot_eq_re_im p a i, (key _).1, (key _).2]

/-- Witness for C2 on the pack of four single precision complex numbers. -/
theorem mm_complex_div_inverts_mm_complex_mul_witness :
    (∀ k : Fin PackType.float_8.lanes,
      0 < re .float_8 (![5, 6, 7, 8, 0, 1, 1, 0] : Fin 8 → ℚ) k ^ 2 +
        im .float_8 (![5, 6, 7, 8, 0, 1, 1, 0] : Fin 8 → ℚ) k ^ 2) ∧
    slot .float_8 (mm_complex_div (BitOr.pick ℚ) .float_8
      (mm_complex_mul .float_8 (![1, 2, 3, 4, 1, 2, 3, 4] : Fin 8 → ℚ)
        ![5, 6, 7, 8, 0, 1, 1, 0]) ![5, 6, 7, 8, 0, 1, 1, 0]) ⟨7, by decide⟩ =
      slot .float_8 (![1, 2, 3, 4, 1, 2, 3, 4] : Fin 8 → ℚ) ⟨7, by decide⟩ :=
  have h : ∀ k : Fin PackType.float_8.lanes,
      0 < re .float_8 (![5, 6, 7, 8, 0, 1, 1, 0] : Fin 8 → ℚ) k ^ 2 +
        im .float_8 (![5, 6, 7, 8, 0, 1, 1, 0] : Fin 8 → ℚ) k ^ 2 := by
    intro k
    change Fin 4 at k
    fin_cases k
    · show (0 : ℚ) < 5 ^ 2 + 6 ^ 2
      norm_num
    · show (0 : ℚ) < 7 ^ 2 + 8 ^ 2
      norm_num
    · show (0 : ℚ) < 0 ^ 2 + 1 ^ 2
      norm_num
    · show (0 : ℚ) < 1 ^ 2 + 0 ^ 2
      norm_num
  ⟨h, mm_complex_div_inverts_mm_complex_mul (BitOr.pick ℚ) .float_8 _ _ h ⟨7, by decide⟩⟩

/-- C3: for every pack type, width 1 included, and all packs `a`, `b` with
positive squared modulus in every complex position of `b`, `mm_complex_div a b`
equals `mm_div (mm_complex_mul a (mm_complex_conj b)) (mm_complex_sq_mod b)`;
at width 1 this says that the native quotient `a / b` agrees with the
multiply-by-conjugate-then-scale formula. -/
theorem mm_complex_div_eq_conj_formula [LinearOrderedField F] (B : BitOr F)
    (p : PackType) (a b : pack F p)
    (_hb : ∀ k : Fin p.lanes, 0 < re p b k ^ 2 + im p b k ^ 2) :
    mm_complex_div B p a b =
      mm_div p (mm_complex_mul p a (mm_complex_conj p b)) (mm_complex_sq_mod B p b) :=
  complex_div_unfold B p a b

/-- Witness for C3 at width 1: `(1 + 2i) / (3 + 4i)`. -/
theorem mm_complex_div_eq_conj_formula_witness :
    (∀ k : Fin PackType.double_1.lanes,
      0 < re .double_1 (⟨3, 4⟩ : complex ℚ) k ^ 2 + im .double_1 (⟨3, 4⟩ : complex ℚ) k ^ 2) ∧
    mm_complex_div (BitOr.pick ℚ) .double_1 (⟨1, 2⟩ : complex ℚ) ⟨3, 4⟩ =
      mm_div .double_1 (mm_complex_mul .double_1 (⟨1, 2⟩ : complex ℚ)
        (mm_complex_conj .double_1 ⟨3, 4⟩)) (mm_complex_sq_mod (BitOr.pick ℚ) .double_1 ⟨3, 4⟩) :=
  have h : ∀ k : Fin PackType.double_1.lanes,
      0 < re .double_1 (⟨3, 4⟩ : complex ℚ) k ^ 2 + im .double_1 (⟨3, 4⟩ : complex ℚ) k ^ 2 := by
    intro k
    simp [re, im, slot]
    norm_num
  ⟨h, mm_complex_div_eq_conj_formula (BitOr.pick ℚ) .double_1 _ _ h⟩

/-- C4, as stated, fails at width 1: the squared modulus of `1 + 2i` is `5`,
but the imaginary slot of `mm_complex_sq_mod` holds `0`. -/
theorem mm_complex_sq_mod_width1_imag_not_broadcast :
    slot .double_1 (mm_complex_sq_mod (BitOr.pick ℚ) .double_1 (⟨1, 2⟩ : complex ℚ))
        ⟨1, by decide⟩ = 0 ∧
    re .double_1 (⟨1, 2⟩ : complex ℚ) ⟨0, by decide⟩ ^ 2 +
      im .double_1 (⟨1, 2⟩ : complex ℚ) ⟨0, by decide⟩ ^ 2 = 5 ∧
    slot .double_1 (mm_complex_sq_mod (BitOr.pick ℚ) .double_1 (⟨1, 2⟩ : complex ℚ))
        ⟨1, by decide⟩ ≠
      re .double_1 (⟨1, 2⟩ : complex ℚ) ⟨0, by decide⟩ ^ 2 +
        im .double_1 (⟨1, 2⟩ : complex ℚ) ⟨0, by decide⟩ ^ 2 := by
  refine ⟨?_, ?_, ?_⟩ <;>
  simp [re, im, slot, mm_complex_sq_mod, mm_complex_sq_mod_1, complex.ofReal, complex.norm] <;>
  norm_num

/-- C4, amended: for every pack type and every pack `a`, the real slot `2k`
of `mm_complex_sq_mod a` holds `Re(a_k)^2 + Im(a_k)^2`; the imaginary slot
`2k+1` holds the same value in the vector pack types and holds `0` at width 1. -/
theorem mm_complex_sq_mod_slots [Field F] (B : BitOr F) (p : PackType) (a : pack F p)
    (k : Fin p.lanes) :
    slot p (mm_complex_sq_mod B p a) ⟨2 * k.val, by omega⟩ = re p a k ^ 2 + im p a k ^ 2 ∧
    slot p (mm_complex_sq_mod B p a) ⟨2 * k.val + 1, by omega⟩ =
      if p.isVector then re p a k ^ 2 + im p a k ^ 2 else 0 := by
  have h := complex_sq_mod_lane B p a k
  simp only [re, im] at h
  simp only [re, im, pow_two]
  exact h

/-- C5: over the reals with the non-negative square root, the square of
`mm_complex_mod a` equals `mm_complex_sq_mod a`, which is `Re^2 + Im^2` of the
complex position: in every slot for the vector pack types, and for the scalar
returned at width 1 against the real part of `mm_complex_sq_mod a`. -/
theorem mm_complex_mod_sq_eq_sq_mod (B : BitOr ℝ) :
    (∀ a : complex ℝ,
      mm_complex_mod_1 Real.sqrt a ^ 2 = (mm_complex_sq_mod_1 a).real ∧
      (mm_complex_sq_mod_1 a).real = a.real ^ 2 + a.imag ^ 2) ∧
    (∀ (x : m128 ℝ) (i : Fin 4),
      mm_complex_mod_float_4 Real.sqrt B x i ^ 2 = mm_complex_sq_mod_float_4 B x i ∧
      mm_complex_sq_mod_float_4 B x i =
        x ⟨2 * (i.val / 2), by omega⟩ ^ 2 + x ⟨2 * (i.val / 2) + 1, by omega⟩ ^ 2) ∧
    (∀ (x : m256 ℝ) (i : Fin 8),
      mm_complex_mod_float_8 Real.sqrt B x i ^ 2 = mm_complex_sq_mod_float_8 B x i ∧
      mm_complex_sq_mod_float_8 B x i =
        x ⟨2 * (i.val / 2), by omega⟩ ^ 2 + x ⟨2 * (i.val / 2) + 1, by omega⟩ ^ 2) ∧
    (∀ (x : m128d ℝ) (i : Fin 2),
      mm_complex_mod_double_2 Real.sqrt x i ^ 2 = mm_complex_sq_mod_double_2 x i ∧
      mm_complex_sq_mod_double_2 x i =
        x ⟨2 * (i.val / 2), by omega⟩ ^ 2 + x ⟨2 * (i.val / 2) + 1, by omega⟩ ^ 2) ∧
    (∀ (x : m256d ℝ) (i : Fin 4),
      mm_complex_mod_double_4 Real.sqrt x i ^ 2 = mm_complex_sq_mod_double_4 x i ∧
      mm_complex_sq_mod_double_4 x i =
        x ⟨2 * (i.val / 2), by omega⟩ ^ 2 + x ⟨2 * (i.val / 2) + 1, by omega⟩ ^ 2) := by
  have hval : ∀ (p : PackType) (a : pack ℝ p) (i : Fin (2 * p.lanes)), p.isVector = true →
      slot p (mm_complex_sq_mod B p a) i =
        slot p a ⟨2 * (i.val / 2), by omega⟩ ^ 2 + slot p a ⟨2 * (i.val / 2) + 1, by omega⟩ ^ 2 := by
    intro p a i hv
    have h := complex_sq_mod_lane B p a ⟨i.val / 2, by omega⟩
    simp only [re, im, hv, if_true] at h
    rw [slot_eq_re_im]
    split
    · simp only [re, pow_two]
      exact h.1
    · simp only [im, pow_two]
      exact h.2
  refine ⟨fun a => ⟨?_, ?_⟩, fun x i => ⟨?_, ?_⟩, fun x i => ⟨?_, ?_⟩, fun x i => ⟨?_, ?_⟩,
    fun x i => ⟨?_, ?_⟩⟩
  · have h0 := complex_sq_mod_slot_nonneg B .double_1 a ⟨0, by decide⟩
    simp only [slot, mm_complex_sq_mod, mm_complex_sq_mod_1, complex.ofReal, if_true] at h0
    simp only [mm_complex_mod_1, complex.abs, mm_complex_sq_mod_1, complex.ofReal]
    exact Real.sq_sqrt h0
  · simp only [mm_complex_sq_mod_1, complex.ofReal, complex.norm, pow_two]
  · exact Real.sq_sqrt (complex_sq_mod_slot_nonneg B .float_4 x i)
  · exact hval .float_4 x i rfl
  · exact Real.sq_sqrt (complex_sq_mod_slot_nonneg B .float_8 x i)
  · exact hval .float_8 x i rfl
  · exact Real.sq_sqrt (complex_sq_mod_slot_nonneg B .double_2 x i)
  · exact hval .double_2 x i rfl
  · exact Real.sq_sqrt (complex_sq_mod_slot_nonneg B .double_4 x i)
  · exact hval .double_4 x i rfl

/-- C6: for every pack type and every pack `a`,
`mm_complex_conj (mm_complex_conj a)` equals `a` exactly, in every slot. -/
theorem mm_complex_conj_involution [Field F] (p : PackType) (a : pack F p) :
    mm_complex_conj p (mm_complex_conj p a) = a ∧
    ∀ i, slot p (mm_complex_conj p (mm_complex_conj p a)) i = slot p a i := by
  have h : ∀ i, slot p (mm_complex_conj p (mm_complex_conj p a)) i = slot p a i := by
    intro i
    rw [slot_eq_re_im p _ i, slot_eq_re_im p a i, (complex_conj_lane p _ _).1,
      (complex_conj_lane p _ _).2, (complex_conj_lane p _ _).1, (complex_conj_lane p _ _).2,
      neg_neg]
  exact ⟨pack_ext p _ _ h, h⟩

/-- C7: for every pack type and every pack `a`, slot `i` of `mm_complex_conj a`
is `a[i]` for every even slot index and `-a[i]` for every odd slot index; the
blend masks `0b1010`, `0b10101010`, `0b10`, `0b1010` have exactly the odd bits set. -/
theorem mm_complex_conj_slots [Field F] (p : PackType) (a : pack F p) (i : Fin (2 * p.lanes)) :
    (slot p (mm_complex_conj p a) i = if i.val % 2 = 0 then slot p a i else - slot p a i) ∧
    (∀ j : Fin 4, immBit 0b1010 j.val = decide (j.val % 2 = 1)) ∧
    (∀ j : Fin 8, immBit 0b10101010 j.val = decide (j.val % 2 = 1)) ∧
    (∀ j : Fin 2, immBit 0b10 j.val = decide (j.val % 2 = 1)) := by
  refine ⟨?_, by decide, by decide, by decide⟩
  rw [slot_eq_re_im p _ i, slot_eq_re_im p a i, (complex_conj_lane p _ _).1,
    (complex_conj_lane p _ _).2]
  split <;> rfl

/-- C8: at width 1, for all complex `a` and `b`, `mm_mul a b` is
`(Re a * Re b, Im a * Re b)` and `mm_div a b` is `(Re a / Re b, Im a / Re b)`,
whatever the imaginary part of `b`; `mm_mul (1,2) (3,99)` is `(3,6)`, which
differs from `mm_complex_mul (1,2) (3,99) = (-195,105)`. -/
theorem mm_mul_div_width1_real_scaling [LinearOrderedField F] (a b : complex F) (y : F) :
    mm_mul .float_1 a b = (⟨a.real * b.real, a.imag * b.real⟩ : complex F) ∧
    mm_mul .double_1 a b = (⟨a.real * b.real, a.imag * b.real⟩ : complex F) ∧
    mm_div .float_1 a b = (⟨a.real / b.real, a.imag / b.real⟩ : complex F) ∧
    mm_div .double_1 a b = (⟨a.real / b.real, a.imag / b.real⟩ : complex F) ∧
    mm_mul .float_1 a (⟨b.real, y⟩ : complex F) = mm_mul .float_1 a b ∧
    mm_mul .double_1 a (⟨b.real, y⟩ : complex F) = mm_mul .double_1 a b ∧
    mm_div .float_1 a (⟨b.real, y⟩ : complex F) = mm_div .float_1 a b ∧
    mm_div .double_1 a (⟨b.real, y⟩ : complex F) = mm_div .double_1 a b ∧
    mm_mul .float_1 (⟨1, 2⟩ : complex F) (⟨3, 99⟩ : complex F) = (⟨3, 6⟩ : complex F) ∧
    mm_mul .double_1 (⟨1, 2⟩ : complex F) (⟨3, 99⟩ : complex F) = (⟨3, 6⟩ : complex F) ∧
    mm_complex_mul .float_1 (⟨1, 2⟩ : complex F) (⟨3, 99⟩ : complex F) =
      (⟨-195, 105⟩ : complex F) ∧
    mm_complex_mul .double_1 (⟨1, 2⟩ : complex F) (⟨3, 99⟩ : complex F) =
      (⟨-195, 105⟩ : complex F) ∧
    mm_mul .float_1 (⟨1, 2⟩ : complex F) (⟨3, 99⟩ : complex F) ≠
      mm_complex_mul .float_1 (⟨1, 2⟩ : complex F) (⟨3, 99⟩ : complex F) ∧
    mm_mul .double_1 (⟨1, 2⟩ : complex F) (⟨3, 99⟩ : complex F) ≠
      mm_complex_mul .double_1 (⟨1, 2⟩ : complex F) (⟨3, 99⟩ : complex F) := by
  have hm : mm_mul_1 (⟨1, 2⟩ : complex F) ⟨3, 99⟩ = ⟨3, 6⟩ := by
    simp only [mm_mul_1, complex.mulScalar, complex.mk.injEq]
    constructor <;> norm_num
  have hc : mm_complex_mul_1 (⟨1, 2⟩ : complex F) ⟨3, 99⟩ = ⟨-195, 105⟩ := by
    simp only [mm_complex_mul_1, complex.mul, complex.mk.injEq]
    constructor <;> norm_num
  have hne : mm_mul_1 (⟨1, 2⟩ : complex F) ⟨3, 99⟩ ≠ mm_complex_mul_1 ⟨1, 2⟩ ⟨3, 99⟩ := by
    rw [hm, hc]
    intro h
    have h1 := congrArg complex.real h
    simp only at h1
    norm_num at h1
  exact ⟨rfl, rfl, rfl, rfl, rfl, rfl, rfl, rfl, hm, hm, hc, hc, hne, hne⟩

/-- C9: `mm_add` and `mm_sub` act on every primitive slot independently for
every pack type, width 1 included; on the vector pack types so do `mm_mul` and
`mm_div` (the latter where the divisor slot is not zero). -/
theorem mm_arithmetic_slotwise [Field F] (p : PackType) (x y : pack F p)
    (i : Fin (2 * p.lanes)) :
    slot p (mm_add p x y) i = slot p x i + slot p y i ∧
    slot p (mm_sub p x y) i = slot p x i - slot p y i ∧
    (p.isVector = true →
      slot p (mm_mul p x y) i = slot p x i * slot p y i ∧
      (slot p y i ≠ 0 → slot p (mm_div p x y) i = slot p x i / slot p y i)) :=
  ⟨(add_sub_slot p x y i).1, (add_sub_slot p x y i).2,
    fun hv => ⟨(mul_div_slot_vector p hv x y i).1, fun _ => (mul_div_slot_vector p hv x y i).2⟩⟩

/-- Witness for C9 on the pack of four single precision complex numbers, slot 5. -/
theorem mm_arithmetic_slotwise_witness :
    PackType.float_8.isVector = true ∧
    slot .float_8 (![5, 6, 7, 8, 0, 1, 1, 0] : Fin 8 → ℚ) ⟨5, by decide⟩ ≠ 0 ∧
    slot .float_8 (mm_mul .float_8 (![1, 2, 3, 4, 1, 2, 3, 4] : Fin 8 → ℚ)
        ![5, 6, 7, 8, 0, 1, 1, 0]) ⟨5, by decide⟩ =
      slot .float_8 (![1, 2, 3, 4, 1, 2, 3, 4] : Fin 8 → ℚ) ⟨5, by decide⟩ *
        slot .float_8 (![5, 6, 7, 8, 0, 1, 1, 0] : Fin 8 → ℚ) ⟨5, by decide⟩ ∧
    slot .float_8 (mm_div .float_8 (![1, 2, 3, 4, 1, 2, 3, 4] : Fin 8 → ℚ)
        ![5, 6, 7, 8, 0, 1, 1, 0]) ⟨5, by decide⟩ =
      slot .float_8 (![1, 2, 3, 4, 1, 2, 3, 4] : Fin 8 → ℚ) ⟨5, by decide⟩ /
        slot .float_8 (![5, 6, 7, 8, 0, 1, 1, 0] : Fin 8 → ℚ) ⟨5, by decide⟩ :=
  have hy : slot .float_8 (![5, 6, 7, 8, 0, 1, 1, 0] : Fin 8 → ℚ) ⟨5, by decide⟩ ≠ 0 := by
    show (1 : ℚ) ≠ 0
    norm_num
  ⟨rfl, hy,
    ((mm_arithmetic_slotwise .float_8 (![1, 2, 3, 4, 1, 2, 3, 4] : Fin 8 → ℚ)
      ![5, 6, 7, 8, 0, 1, 1, 0] ⟨5, by decide⟩).2.2 rfl).1,
    ((mm_arithmetic_slotwise .float_8 (![1, 2, 3, 4, 1, 2, 3, 4] : Fin 8 → ℚ)
      ![5, 6, 7, 8, 0, 1, 1, 0] ⟨5, by decide⟩).2.2 rfl).2 hy⟩

/-- C10, as stated, fails for `mm_mul`: on the pack of one double precision
complex number, `mm_mul (1,2) (3,99)` holds `(3,198)`, while the width-1
`mm_mul` of the same complex numbers returns `(3,6)`. -/
theorem mm_mul_vector_differs_from_width1 :
    lane .double_2 (mm_mul .double_2 (![1, 2] : Fin 2 → ℚ) ![3, 99]) ⟨0, by decide⟩ =
      ⟨3, 198⟩ ∧
    mm_mul .double_1 (lane .double_2 (![1, 2] : Fin 2 → ℚ) ⟨0, by decide⟩)
      (lane .double_2 (![3, 99] : Fin 2 → ℚ) ⟨0, by decide⟩) = (⟨3, 6⟩ : complex ℚ) ∧
    lane .double_2 (mm_mul .double_2 (![1, 2] : Fin 2 → ℚ) ![3, 99]) ⟨0, by decide⟩ ≠
      mm_mul .double_1 (lane .double_2 (![1, 2] : Fin 2 → ℚ) ⟨0, by decide⟩)
        (lane .double_2 (![3, 99] : Fin 2 → ℚ) ⟨0, by decide⟩) := by
  have h1 : lane .double_2 (mm_mul .double_2 (![1, 2] : Fin 2 → ℚ) ![3, 99]) ⟨0, by decide⟩ =
      ⟨3, 198⟩ := by
    show (⟨(1 : ℚ) * 3, (2 : ℚ) * 99⟩ : complex ℚ) = ⟨3, 198⟩
    norm_num
  have h2 : mm_mul .double_1 (lane .double_2 (![1, 2] : Fin 2 → ℚ) ⟨0, by decide⟩)
      (lane .double_2 (![3, 99] : Fin 2 → ℚ) ⟨0, by decide⟩) = (⟨3, 6⟩ : complex ℚ) := by
    show (⟨(1 : ℚ) * 3, (2 : ℚ) * 3⟩ : complex ℚ) = ⟨3, 6⟩
    norm_num
  refine ⟨h1, h2, ?_⟩
  rw [h1, h2]
  intro h
  have h' := congrArg complex.imag h
  simp only at h'
  norm_num at h'

/-- C10, amended: for every vector pack type and every complex position `k`,
the two slots of position `k` of `mm_add`, `mm_sub`, `mm_complex_mul` and
`mm_complex_conj` are the pair the width-1 operation of the same name returns
on `a_k`, `b_k`, and so are those of `mm_complex_div` where the squared modulus
of `b_k` is positive; `mm_mul` and `mm_div` hold
`(Re a_k * Re b_k, Im a_k * Im b_k)` and `(Re a_k / Re b_k, Im a_k / Im b_k)`,
which is the width-1 result when `Im b_k = Re b_k`; the real slot of
`mm_complex_sq_mod` is the real part of the width-1 result, and its imaginary
slot holds the squared modulus where the width-1 result has imaginary part `0`. -/
theorem vector_ops_vs_width1 [LinearOrderedField F] (B : BitOr F) (p : PackType)
    (hv : p.isVector = true) (a b : pack F p) (k : Fin p.lanes) :
    lane p (mm_add p a b) k = mm_add_1 (lane p a k) (lane p b k) ∧
    lane p (mm_sub p a b) k = mm_sub_1 (lane p a k) (lane p b k) ∧
    lane p (mm_complex_mul p a b) k = mm_complex_mul_1 (lane p a k) (lane p b k) ∧
    lane p (mm_complex_conj p a) k = mm_complex_conj_1 (lane p a k) ∧
    (0 < re p b k ^ 2 + im p b k ^ 2 →
      lane p (mm_complex_div B p a b) k = mm_complex_div_1 (lane p a k) (lane p b k)) ∧
    lane p (mm_mul p a b) k = ⟨re p a k * re p b k, im p a k * im p b k⟩ ∧
    lane p (mm_div p a b) k = ⟨re p a k / re p b k, im p a k / im p b k⟩ ∧
    (im p b k = re p b k →
      lane p (mm_mul p a b) k = mm_mul_1 (lane p a k) (lane p b k) ∧
      lane p (mm_div p a b) k = mm_div_1 (lane p a k) (lane p b k)) ∧
    re p (mm_complex_sq_mod B p a) k = (mm_complex_sq_mod_1 (lane p a k)).real ∧
    im p (mm_complex_sq_mod B p a) k = re p a k ^ 2 + im p a k ^ 2 ∧
    (mm_complex_sq_mod_1 (lane p a k)).imag = 0 := by
  have hadd := add_sub_slot p a b
  have hmd := mul_div_lane p a b k
  simp only [hv, if_true] at hmd
  have hcm := complex_mul_lane p a b k
  have hcc := complex_conj_lane p a k
  have hcd := complex_div_lane B p a b k
  have hsq := complex_sq_mod_lane B p a k
  refine ⟨?_, ?_, ?_, ?_, ?_, ?_, ?_, ?_, ?_, ?_, rfl⟩
  · simp only [lane, re, im, mm_add_1, complex.add, (hadd _).1]
  · simp only [lane, re, im, mm_sub_1, complex.sub, (hadd _).2]
  · simp only [lane, mm_complex_mul_1, complex.mul, hcm.1, hcm.2]
  · simp only [lane, mm_complex_conj_1, complex.conj, hcc.1, hcc.2]
  · intro _
    simp only [lane, mm_complex_div_1, complex.div, complex.norm, hcd.1, hcd.2]
  · simp only [lane, hmd.1.1, hmd.1.2]
  · simp only [lane, hmd.2.1, hmd.2.2]
  · intro hb
    simp only [lane, mm_mul_1, mm_div_1, complex.mulScalar, complex.divScalar, hmd.1.1,
      hmd.1.2, hmd.2.1, hmd.2.2, hb, and_self]
  · simp only [lane, mm_complex_sq_mod_1, complex.ofReal, complex.norm, hsq.1]
  · simp only [hsq.2, hv, if_true, pow_two]

/-- Witness for C10 amended, on the pack of two double precision complex
numbers with second operand `(5,5), (7,7)`. -/
theorem vector_ops_vs_width1_witness :
    PackType.double_4.isVector = true ∧
    (0 : ℚ) < re .double_4 (![5, 5, 7, 7] : Fin 4 → ℚ) ⟨1, by decide⟩ ^ 2 +
      im .double_4 (![5, 5, 7, 7] : Fin 4 → ℚ) ⟨1, by decide⟩ ^ 2 ∧
    im .double_4 (![5, 5, 7, 7] : Fin 4 → ℚ) ⟨1, by decide⟩ =
      re .double_4 (![5, 5, 7, 7] : Fin 4 → ℚ) ⟨1, by decide⟩ ∧
    lane .double_4 (mm_complex_div (BitOr.pick ℚ) .double_4 (![1, 2, 3, 4] : Fin 4 → ℚ)
        ![5, 5, 7, 7]) ⟨1, by decide⟩ =
      mm_complex_div_1 (lane .double_4 (![1, 2, 3, 4] : Fin 4 → ℚ) ⟨1, by decide⟩)
        (lane .double_4 (![5, 5, 7, 7] : Fin 4 → ℚ) ⟨1, by decide⟩) ∧
    lane .double_4 (mm_mul .double_4 (![1, 2, 3, 4] : Fin 4 → ℚ) ![5, 5, 7, 7])
        ⟨1, by decide⟩ =
      mm_mul_1 (lane .double_4 (![1, 2, 3, 4] : Fin 4 → ℚ) ⟨1, by decide⟩)
        (lane .double_4 (![5, 5, 7, 7] : Fin 4 → ℚ) ⟨1, by decide⟩) :=
  have hpos : (0 : ℚ) < re .double_4 (![5, 5, 7, 7] : Fin 4 → ℚ) ⟨1, by decide⟩ ^ 2 +
      im .double_4 (![5, 5, 7, 7] : Fin 4 → ℚ) ⟨1, by decide⟩ ^ 2 := by
    show (0 : ℚ) < 7 ^ 2 + 7 ^ 2
    norm_num
  have heq : im .double_4 (![5, 5, 7, 7] : Fin 4 → ℚ) ⟨1, by decide⟩ =
      re .double_4 (![5, 5, 7, 7] : Fin 4 → ℚ) ⟨1, by decide⟩ := rfl
  ⟨rfl, hpos, heq,
    (vector_ops_vs_width1 (BitOr.pick ℚ) .double_4 rfl (![1, 2, 3, 4] : Fin 4 → ℚ)
      ![5, 5, 7, 7] ⟨1, by decide⟩).2.2.2.2.1 hpos,
    ((vector_ops_vs_width1 (BitOr.pick ℚ) .double_4 rfl (![1, 2, 3, 4] : Fin 4 → ℚ)
      ![5, 5, 7, 7] ⟨1, by decide⟩).2.2.2.2.2.2.2.1 heq).1⟩

/-! ### Memory and constructors -/

/-- An unaligned load of `n` primitives is defined exactly on arrays of at
least `n` elements and returns the first `n` of them. -/
theorem loadu_spec [Field F] (n : Nat) (src : List F) :
    (n ≤ src.length →
      ∃ x, loadu n src = some x ∧ ∀ i : Fin n, src[i.val]? = some (x i)) ∧
    (¬ n ≤ src.length → loadu n src = none) := by
  constructor
  · intro h
    refine ⟨_, dif_pos h, fun i => ?_⟩
    have hi : i.val < src.length := by omega
    simp [List.getElem?_eq_getElem hi]
  · intro h
    exact dif_neg h

/-- An unaligned store of `n` primitives is defined exactly on arrays of at
least `n` elements, overwrites the first `n` of them and nothing else. -/
theorem storeu_spec [Field F] {n : Nat} (dest : List F) (x : Fin n → F) :
    (n ≤ dest.length → ∃ out, storeu dest x = some out ∧ out.length = dest.length ∧
      (∀ i : Fin n, out[i.val]? = some (x i)) ∧ ∀ j, n ≤ j → out[j]? = dest[j]?) ∧
    (¬ n ≤ dest.length → storeu dest x = none) := by
  constructor
  · intro h
    refine ⟨_, if_pos h, ?_, fun i => ?_, fun j hj => ?_⟩
    · simp
      omega
    · rw [List.getElem?_append_left (by simp)]
      simp
    · rw [List.getElem?_append_right (by simp [hj])]
      simp
      congr 1
      omega
  · intro h
    exact if_neg h

/-- The load `mm_load` of every pack type is defined exactly on arrays of at
least `2 * lanes` primitives and returns the first `2 * lanes` of them. -/
theorem mm_load_spec [Field F] (p : PackType) (src : List F) :
    (2 * p.lanes ≤ src.length →
      ∃ x, mm_load p src = some x ∧ ∀ i : Fin (2 * p.lanes), src[i.val]? = some (slot p x i)) ∧
    (¬ 2 * p.lanes ≤ src.length → mm_load p src = none) := by
  cases p
  · constructor
    · intro h
      have h2 : 2 ≤ src.length := h
      refine ⟨_, dif_pos h2, fun i => ?_⟩
      have hi : i.val < 2 := i.isLt
      by_cases h0 : i.val = 0
      · simp [slot, h0]
      · have h1 : i.val = 1 := by omega
        have hl : 1 < src.length := by omega
        simp [slot, h1, List.getElem?_eq_getElem hl]
    · intro h
      exact dif_neg h
  · constructor
    · intro h
      have h2 : 2 ≤ src.length := h
      refine ⟨_, dif_pos h2, fun i => ?_⟩
      have hi : i.val < 2 := i.isLt
      by_cases h0 : i.val = 0
      · simp [slot, h0]
      · have h1 : i.val = 1 := by omega
        have hl : 1 < src.length := by omega
        simp [slot, h1, List.getElem?_eq_getElem hl]
    · intro h
      exact dif_neg h
  · exact loadu_spec 4 src
  · exact loadu_spec 8 src
  · exact loadu_spec 2 src
  · exact loadu_spec 4 src

/-- The width-1 store writes the real and the imaginary part to the first two
elements and nothing else. -/
theorem mm_store_1_spec [Field F] (dest : List F) (x : complex F) :
    (2 ≤ dest.length → ∃ out, mm_store_1 dest x = some out ∧ out.length = dest.length ∧
      out[0]? = some x.real ∧ out[1]? = some x.imag ∧ ∀ j, 2 ≤ j → out[j]? = dest[j]?) ∧
    (¬ 2 ≤ dest.length → mm_store_1 dest x = none) := by
  constructor
  · intro h
    refine ⟨_, if_pos h, ?_, ?_, ?_, fun j hj => ?_⟩
    · simp
    · have h0 : 0 < dest.length := by omega
      simp [List.getElem?_set, h0]
    · have h1 : 1 < dest.length := by omega
      simp [List.getElem?_set, h1]
    · have hj0 : ¬ 0 = j := by omega
      have hj1 : ¬ 1 = j := by omega
      simp [List.getElem?_set, hj0, hj1]
  · intro h
    exact if_neg h

/-- The store `mm_store` of every pack type is defined exactly on arrays of at
least `2 * lanes` primitives, writes the slots of the pack to the first
`2 * lanes` elements, and leaves the length and the other elements alone. -/
theorem mm_store_spec [Field F] (p : PackType) (dest : List F) (x : pack F p) :
    (2 * p.lanes ≤ dest.length →
      ∃ out, mm_store p dest x = some out ∧ out.length = dest.length ∧
        (∀ i : Fin (2 * p.lanes), out[i.val]? = some (slot p x i)) ∧
        ∀ j, 2 * p.lanes ≤ j → out[j]? = dest[j]?) ∧
    (¬ 2 * p.lanes ≤ dest.length → mm_store p dest x = none) := by
  have w1 : ∀ a : complex F,
      (2 ≤ dest.length → ∃ out, mm_store_1 dest a = some out ∧ out.length = dest.length ∧
        (∀ i : Fin 2, out[i.val]? = some (if i.val = 0 then a.real else a.imag)) ∧
        ∀ j, 2 ≤ j → out[j]? = dest[j]?) ∧
      (¬ 2 ≤ dest.length → mm_store_1 dest a = none) := by
    intro a
    refine ⟨fun h => ?_, (mm_store_1_spec dest a).2⟩
    obtain ⟨out, ho, hl, h0, h1, hr⟩ := (mm_store_1_spec dest a).1 h
    refine ⟨out, ho, hl, fun i => ?_, hr⟩
    have hi : i.val < 2 := i.isLt
    by_cases hz : i.val = 0
    · simp [hz, h0]
    · have h1' : i.val = 1 := by omega
      simp [h1', h1]
  cases p
  · exact w1 x
  · exact w1 x
  · exact storeu_spec dest x
  · exact storeu_spec dest x
  · exact storeu_spec dest x
  · exact storeu_spec dest x

/-- Slots of the broadcast constructors: `mm_set1 x` holds `x` everywhere,
`mm_pair_set x y` holds `x` in the even and `y` in the odd slots. -/
theorem set_slot [Field F] (p : PackType) (x y : F) (i : Fin (2 * p.lanes)) :
    slot p (mm_set1 p x) i = x ∧
    slot p (mm_pair_set p x y) i = if i.val % 2 = 0 then x else y := by
  cases p
  · change Fin 2 at i
    fin_cases i <;> simp [slot, mm_set1, mm_pair_set, mm_set1_1, mm_pair_set_1]
  · change Fin 2 at i
    fin_cases i <;> simp [slot, mm_set1, mm_pair_set, mm_set1_1, mm_pair_set_1]
  · change Fin 4 at i
    fin_cases i <;>
    simp [slot, mm_set1, mm_pair_set, mm_set1_float_4, mm_pair_set_float_4, mm_set1_ps,
      mm_setr_ps]
  · change Fin 8 at i
    fin_cases i <;>
    simp [slot, mm_set1, mm_pair_set, mm_set1_float_8, mm_pair_set_float_8, mm256_set1_ps,
      mm256_setr_ps]
  · change Fin 2 at i
    fin_cases i <;>
    simp [slot, mm_set1, mm_pair_set, mm_set1_double_2, mm_pair_set_double_2, mm_set1_pd,
      mm_setr_pd]
  · change Fin 4 at i
    fin_cases i <;>
    simp [slot, mm_set1, mm_pair_set, mm_set1_double_4, mm_pair_set_double_4, mm256_set1_pd,
      mm256_setr_pd]

/-- Number of primitives of a pack type against its template argument `N`:
two at `N = 1`, and `N` otherwise. -/
theorem primitives_of_width (p : PackType) :
    ((2 * p.lanes : Nat) : Int) = if p.width = 1 then 2 else p.width := by
  cases p <;> decide

/-! ### Claims, continued -/

/-- C11: for every pack type, every source array with at least as many
primitives as the pack holds and every destination array of at least that
size, `mm_store dest (mm_load src)` succeeds and leaves `dest[i] = src[i]` for
every index `i` that `mm_load` read (`i < 2` at width 1, `i < N` for
`pack<F, N>` with `N` in 2, 4, 8). -/
theorem mm_store_mm_load_roundtrip [Field F] (p : PackType) (src dest : List F)
    (hs : 2 * p.lanes ≤ src.length) (hd : 2 * p.lanes ≤ dest.length) :
    ((2 * p.lanes : Nat) : Int) = (if p.width = 1 then 2 else p.width) ∧
    ∃ x out, mm_load p src = some x ∧ mm_store p dest x = some out ∧
      ∀ i, i < 2 * p.lanes → out[i]? = src[i]? := by
  refine ⟨primitives_of_width p, ?_⟩
  obtain ⟨x, hx, hsl⟩ := (mm_load_spec p src).1 hs
  obtain ⟨out, ho, _, hw, _⟩ := (mm_store_spec p dest x).1 hd
  refine ⟨x, out, hx, ho, fun i hi => ?_⟩
  rw [hw ⟨i, hi⟩, hsl ⟨i, hi⟩]

/-- Witness for C11 on the pack of two single precision complex numbers. -/
theorem mm_store_mm_load_roundtrip_witness :
    2 * PackType.float_4.lanes ≤ ([1, 2, 3, 4, 5] : List ℚ).length ∧
    2 * PackType.float_4.lanes ≤ ([0, 0, 0, 0] : List ℚ).length ∧
    ∃ x out, mm_load .float_4 ([1, 2, 3, 4, 5] : List ℚ) = some x ∧
      mm_store .float_4 ([0, 0, 0, 0] : List ℚ) x = some out ∧
      ∀ i, i < 2 * PackType.float_4.lanes → out[i]? = ([1, 2, 3, 4, 5] : List ℚ)[i]? :=
  ⟨by decide, by decide,
    (mm_store_mm_load_roundtrip .float_4 ([1, 2, 3, 4, 5] : List ℚ) [0, 0, 0, 0]
      (by decide) (by decide)).2⟩

/-- C12, as stated, fails for `pack<float, 4>`: the width parameter is 4, so
the claim has `mm_load` read 8 primitives and `mm_store` write 8, but the load
is defined on an array of 4 primitives and the store into an array of 8 leaves
the last 4 as they were; the pack holds 2 complex numbers. -/
theorem mm_load_store_float_4_extent :
    PackType.float_4.width = 4 ∧
    ([1, 2, 3, 4] : List ℚ).length < 2 * 4 ∧
    (∃ x, mm_load .float_4 ([1, 2, 3, 4] : List ℚ) = some x) ∧
    mm_store .float_4 ([0, 0, 0, 0, 9, 9, 9, 9] : List ℚ) (mm_set1 .float_4 5) =
      some [5, 5, 5, 5, 9, 9, 9, 9] ∧
    PackType.float_4.lanes = 2 := by
  refine ⟨rfl, by decide, ?_, ?_, rfl⟩
  · obtain ⟨x, hx, _⟩ := (mm_load_spec .float_4 ([1, 2, 3, 4] : List ℚ)).1 (by decide)
    exact ⟨x, hx⟩
  · simp [mm_store, mm_store_float_4, mm_storeu_ps, storeu, mm_set1, mm_set1_float_4,
      mm_set1_ps, List.ofFn_succ]

/-- C12, amended: `mm_load<F, N>` reads exactly the first `2` primitives at
`N = 1` and the first `N` primitives at `N` in 2, 4, 8 (it is defined exactly
on arrays that long, and slot `i` of the result is `src[i]`); `mm_store<F, N>`
writes exactly that many (it is defined exactly on arrays that long, puts slot
`i` in `dest[i]`, keeps the length and every later element); the pack holds
half that many complex numbers. -/
theorem mm_load_store_extent [Field F] (p : PackType) (src dest : List F) (x : pack F p) :
    ((2 * p.lanes : Nat) : Int) = (if p.width = 1 then 2 else p.width) ∧
    ((∃ y, mm_load p src = some y) ↔ 2 * p.lanes ≤ src.length) ∧
    (∀ y, mm_load p src = some y →
      ∀ i : Fin (2 * p.lanes), src[i.val]? = some (slot p y i)) ∧
    ((∃ out, mm_store p dest x = some out) ↔ 2 * p.lanes ≤ dest.length) ∧
    (∀ out, mm_store p dest x = some out →
      out.length = dest.length ∧
      (∀ i : Fin (2 * p.lanes), out[i.val]? = some (slot p x i)) ∧
      ∀ j, 2 * p.lanes ≤ j → out[j]? = dest[j]?) := by
  have hl := mm_load_spec p src
  have hst := mm_store_spec p dest x
  refine ⟨primitives_of_width p, ⟨?_, ?_⟩, ?_, ⟨?_, ?_⟩, ?_⟩
  · rintro ⟨y, hy⟩
    by_contra hn
    rw [hl.2 hn] at hy
    exact Option.noConfusion hy
  · intro h
    obtain ⟨y, hy, _⟩ := hl.1 h
    exact ⟨y, hy⟩
  · intro y hy i
    by_cases h : 2 * p.lanes ≤ src.length
    · obtain ⟨y', hy', hs⟩ := hl.1 h
      rw [hy] at hy'
      cases hy'
      exact hs i
    · rw [hl.2 h] at hy
      exact Option.noConfusion hy
  · rintro ⟨out, ho⟩
    by_contra hn
    rw [hst.2 hn] at ho
    exact Option.noConfusion ho
  · intro h
    obtain ⟨out, ho, _⟩ := hst.1 h
    exact ⟨out, ho⟩
  · intro out ho
    by_cases h : 2 * p.lanes ≤ dest.length
    · obtain ⟨out', ho', h1, h2, h3⟩ := hst.1 h
      rw [ho] at ho'
      cases ho'
      exact ⟨h1, h2, h3⟩
    · rw [hst.2 h] at ho
      exact Option.noConfusion ho

/-- C13: for every pack type and all primitives `x`, `y`, storing `mm_set1 x`
yields an array whose every slot covered by the pack equals `x`, and storing
`mm_pair_set x y` yields `x` in every even slot and `y` in every odd slot. -/
theorem mm_set1_mm_pair_set_stored [Field F] (p : PackType) (x y : F) (dest : List F)
    (hd : 2 * p.lanes ≤ dest.length) :
    (∃ out, mm_store p dest (mm_set1 p x) = some out ∧
      ∀ i, i < 2 * p.lanes → out[i]? = some x) ∧
    (∃ out, mm_store p dest (mm_pair_set p x y) = some out ∧
      ∀ i, i < 2 * p.lanes → out[i]? = some (if i % 2 = 0 then x else y)) := by
  constructor
  · obtain ⟨out, ho, _, hw, _⟩ := (mm_store_spec p dest (mm_set1 p x)).1 hd
    refine ⟨out, ho, fun i hi => ?_⟩
    rw [hw ⟨i, hi⟩, (set_slot p x y ⟨i, hi⟩).1]
  · obtain ⟨out, ho, _, hw, _⟩ := (mm_store_spec p dest (mm_pair_set p x y)).1 hd
    refine ⟨out, ho, fun i hi => ?_⟩
    rw [hw ⟨i, hi⟩, (set_slot p x y ⟨i, hi⟩).2]

/-- Witness for C13 on the pack of four single precision complex numbers. -/
theorem mm_set1_mm_pair_set_stored_witness :
    2 * PackType.float_8.lanes ≤ ([0, 0, 0, 0, 0, 0, 0, 0, 0] : List ℚ).length ∧
    (∃ out, mm_store .float_8 ([0, 0, 0, 0, 0, 0, 0, 0, 0] : List ℚ)
        (mm_set1 .float_8 7) = some out ∧
      ∀ i, i < 2 * PackType.float_8.lanes → out[i]? = some 7) ∧
    (∃ out, mm_store .float_8 ([0, 0, 0, 0, 0, 0, 0, 0, 0] : List ℚ)
        (mm_pair_set .float_8 3 4) = some out ∧
      ∀ i, i < 2 * PackType.float_8.lanes → out[i]? = some (if i % 2 = 0 then 3 else 4)) :=
  ⟨by decide,
    mm_set1_mm_pair_set_stored .float_8 (7 : ℚ) 4 [0, 0, 0, 0, 0, 0, 0, 0, 0] (by decide) |>.1,
    mm_set1_mm_pair_set_stored .float_8 (3 : ℚ) 4 [0, 0, 0, 0, 0, 0, 0, 0, 0] (by decide) |>.2⟩

/-- Indexing inside the array returns the element. -/
theorem cindex_some [Field F] (src : complex_ptr F) (i : Int) (h0 : 0 ≤ (src.pos : Int) + i)
    (h1 : ((src.pos : Int) + i).toNat < src.array.length) :
    cindex src i = some (src.array.get ⟨((src.pos : Int) + i).toNat, h1⟩) := by
  simp [cindex, h0, List.getElem?_eq_getElem h1]

/-- An `int` computation whose exact result is in range returns that result. -/
theorem int32_of_range (x : Int) (h0 : -2 ^ 31 ≤ x) (h1 : x < 2 ^ 31) : int32 x = x := by
  unfold int32
  omega

/-- C14, amended: for every pack type, every `int` stride `s`, negative ones
included, for which every product `k*s` over the complex positions `k` of the
pack is in the range of `int`, and every source pointer for which every
`src[k*s]` lies inside its array, `mm_complex_load src s` puts in complex
position `k` the value `src[k*s]`, real part in slot `2k` and imaginary part
in slot `2k+1`; and `mm_complex_load src` without a stride equals
`mm_complex_load src 1`. -/
theorem mm_complex_load_gathers [Field F] (p : PackType) (src : complex_ptr F) (s : Int) :
    ((∀ k : Fin p.lanes,
        (-2 ^ 31 ≤ (k.val : Int) * s ∧ (k.val : Int) * s < 2 ^ 31) ∧
        0 ≤ (src.pos : Int) + (k.val : Int) * s ∧
        ((src.pos : Int) + (k.val : Int) * s).toNat < src.array.length) →
      ∃ x, mm_complex_load p src s = some x ∧
        ∀ k : Fin p.lanes, ∃ c,
          src.array[((src.pos : Int) + (k.val : Int) * s).toNat]? = some c ∧
          slot p x ⟨2 * k.val, by omega⟩ = c.real ∧
          slot p x ⟨2 * k.val + 1, by omega⟩ = c.imag) ∧
    mm_complex_load_unit p src = mm_complex_load p src 1 := by
  cases p
  · refine ⟨fun h => ?_, rfl⟩
    have h0 := h ⟨0, by decide⟩
    simp only [Nat.cast_zero, zero_mul] at h0
    have e0 := cindex_some src 0 h0.2.1 h0.2.2
    refine ⟨_, e0, fun k => ?_⟩
    change Fin 1 at k
    fin_cases k
    exact ⟨src.array.get ⟨_, h0.2.2⟩, by simp, by simp [slot], by simp [slot]⟩
  · refine ⟨fun h => ?_, rfl⟩
    have h0 := h ⟨0, by decide⟩
    simp only [Nat.cast_zero, zero_mul] at h0
    have e0 := cindex_some src 0 h0.2.1 h0.2.2
    refine ⟨_, e0, fun k => ?_⟩
    change Fin 1 at k
    fin_cases k
    exact ⟨src.array.get ⟨_, h0.2.2⟩, by simp, by simp [slot], by simp [slot]⟩
  · refine ⟨fun h => ?_, rfl⟩
    have h0 := h ⟨0, by decide⟩
    have h1 := h ⟨1, by decide⟩
    simp only [Nat.cast_zero, zero_mul, Nat.cast_one, one_mul] at h0 h1
    have e0 := cindex_some src 0 h0.2.1 h0.2.2
    have e1 := cindex_some src s h1.2.1 h1.2.2
    refine ⟨_, by
      simp only [mm_complex_load, mm_complex_load_float_4, e0, e1, Option.some_bind]
      rfl, fun k => ?_⟩
    change Fin 2 at k
    fin_cases k
    · exact ⟨src.array.get ⟨_, h0.2.2⟩, by simp, by simp [slot, mm_setr_ps], by simp [slot, mm_setr_ps]⟩
    · exact ⟨src.array.get ⟨_, h1.2.2⟩, by simp, by simp [slot, mm_setr_ps], by simp [slot, mm_setr_ps]⟩
  · refine ⟨fun h => ?_, rfl⟩
    have h0 := h ⟨0, by decide⟩
    have h1 := h ⟨1, by decide⟩
    have h2 := h ⟨2, by decide⟩
    have h3 := h ⟨3, by decide⟩
    simp only [Nat.cast_zero, Nat.cast_one, Nat.cast_ofNat] at h0 h1 h2 h3
    have r0 := int32_of_range (0 * s) h0.1.1 h0.1.2
    have r1 := int32_of_range (1 * s) h1.1.1 h1.1.2
    have r2 := int32_of_range (2 * s) h2.1.1 h2.1.2
    have r3 := int32_of_range (3 * s) h3.1.1 h3.1.2
    have e0 := cindex_some src (0 * s) h0.2.1 h0.2.2
    have e1 := cindex_some src (1 * s) h1.2.1 h1.2.2
    have e2 := cindex_some src (2 * s) h2.2.1 h2.2.2
    have e3 := cindex_some src (3 * s) h3.2.1 h3.2.2
    refine ⟨_, by
      simp only [mm_complex_load, mm_complex_load_float_8, r0, r1, r2, r3, e0, e1, e2, e3,
        Option.some_bind]
      rfl, fun k => ?_⟩
    change Fin 4 at k
    fin_cases k
    · exact ⟨src.array.get ⟨_, h0.2.2⟩, by simp, by simp [slot, mm256_setr_ps], by simp [slot, mm256_setr_ps]⟩
    · exact ⟨src.array.get ⟨_, h1.2.2⟩, by simp, by simp [slot, mm256_setr_ps], by simp [slot, mm256_setr_ps]⟩
    · exact ⟨src.array.get ⟨_, h2.2.2⟩, by simp, by simp [slot, mm256_setr_ps], by simp [slot, mm256_setr_ps]⟩
    · exact ⟨src.array.get ⟨_, h3.2.2⟩, by simp, by simp [slot, mm256_setr_ps], by simp [slot, mm256_setr_ps]⟩
  · refine ⟨fun h => ?_, rfl⟩
    have h0 := h ⟨0, by decide⟩
    simp only [Nat.cast_zero, zero_mul] at h0
    have e0 := cindex_some src 0 h0.2.1 h0.2.2
    refine ⟨_, by
      simp only [mm_complex_load, mm_complex_load_double_2, e0, Option.some_bind]
      rfl, fun k => ?_⟩
    change Fin 1 at k
    fin_cases k
    exact ⟨src.array.get ⟨_, h0.2.2⟩, by simp, by simp [slot, mm_setr_pd], by simp [slot, mm_setr_pd]⟩
  · refine ⟨fun h => ?_, rfl⟩
    have h0 := h ⟨0, by decide⟩
    have h1 := h ⟨1, by decide⟩
    simp only [Nat.cast_zero, zero_mul, Nat.cast_one, one_mul] at h0 h1
    have e0 := cindex_some src 0 h0.2.1 h0.2.2
    have e1 := cindex_some src s h1.2.1 h1.2.2
    refine ⟨_, by
      simp only [mm_complex_load, mm_complex_load_double_4, e0, e1, Option.some_bind]
      rfl, fun k => ?_⟩
    change Fin 2 at k
    fin_cases k
    · exact ⟨src.array.get ⟨_, h0.2.2⟩, by simp, by simp [slot, mm256_setr_pd], by simp [slot, mm256_setr_pd]⟩
    · exact ⟨src.array.get ⟨_, h1.2.2⟩, by simp, by simp [slot, mm256_setr_pd], by simp [slot, mm256_setr_pd]⟩

/-- Witness for C14: two complex numbers gathered with stride `-1` from a
pointer to the second element of `(3, 4), (5, 6)`; the pack is `5, 6, 3, 4`. -/
theorem mm_complex_load_gathers_witness :
    (∀ k : Fin PackType.float_4.lanes,
      (-2 ^ 31 ≤ (k.val : Int) * (-1) ∧ (k.val : Int) * (-1) < 2 ^ 31) ∧
      0 ≤ ((1 : Nat) : Int) + (k.val : Int) * (-1) ∧
      (((1 : Nat) : Int) + (k.val : Int) * (-1)).toNat <
        ([⟨3, 4⟩, ⟨5, 6⟩] : List (complex ℚ)).length) ∧
    mm_complex_load .float_4 (⟨[⟨3, 4⟩, ⟨5, 6⟩], 1⟩ : complex_ptr ℚ) (-1) =
      some (mm_setr_ps 5 6 3 4) ∧
    ∃ x, mm_complex_load .float_4 (⟨[⟨3, 4⟩, ⟨5, 6⟩], 1⟩ : complex_ptr ℚ) (-1) = some x ∧
      ∀ k : Fin PackType.float_4.lanes, ∃ c,
        ([⟨3, 4⟩, ⟨5, 6⟩] : List (complex ℚ))[
          (((1 : Nat) : Int) + (k.val : Int) * (-1)).toNat]? = some c ∧
        slot .float_4 x ⟨2 * k.val, by omega⟩ = c.real ∧
        slot .float_4 x ⟨2 * k.val + 1, by omega⟩ = c.imag :=
  have h : ∀ k : Fin PackType.float_4.lanes,
      (-2 ^ 31 ≤ (k.val : Int) * (-1) ∧ (k.val : Int) * (-1) < 2 ^ 31) ∧
      0 ≤ ((1 : Nat) : Int) + (k.val : Int) * (-1) ∧
      (((1 : Nat) : Int) + (k.val : Int) * (-1)).toNat <
        ([⟨3, 4⟩, ⟨5, 6⟩] : List (complex ℚ)).length := by
    decide
  have e : mm_complex_load .float_4 (⟨[⟨3, 4⟩, ⟨5, 6⟩], 1⟩ : complex_ptr ℚ) (-1) =
      some (mm_setr_ps 5 6 3 4) := by
    simp [mm_complex_load, mm_complex_load_float_4, cindex]
  ⟨h, e, (mm_complex_load_gathers .float_4 (⟨[⟨3, 4⟩, ⟨5, 6⟩], 1⟩ : complex_ptr ℚ) (-1)).1 h⟩

/-- The element `i` places from the pointee, when that place is index `n` of
the array. -/
theorem cindex_at [Field F] (src : complex_ptr F) (i : Int) (n : Nat)
    (h : (src.pos : Int) + i = (n : Int)) : cindex src i = src.array[n]? := by
  unfold cindex
  rw [h]
  simp

/-- A stride of `715827883` on the pack of four single precision complex
numbers: `3 * stride` wraps to `-2147483647`, so with the pointer `2147483647`
places into an array that starts with `a` and goes on with at least
`4294967296` copies of `c`, position 3 of the pack holds `a` while the element
`3 * stride` places from the pointee is `c`. -/
theorem complex_load_float_8_wrap [Field F] (N : Nat) (hN : 4294967296 ≤ N) (a c : complex F) :
    (∀ k : Fin PackType.float_8.lanes,
      0 ≤ (2147483647 : Int) + (k.val : Int) * 715827883 ∧
      ((2147483647 : Int) + (k.val : Int) * 715827883).toNat <
        ([a] ++ List.replicate N c).length) ∧
    ([a] ++ List.replicate N c)[((2147483647 : Int) + 3 * 715827883).toNat]? = some c ∧
    int32 (3 * 715827883) = -2147483647 ∧
    ∃ x, mm_complex_load .float_8 ⟨[a] ++ List.replicate N c, 2147483647⟩ 715827883 = some x ∧
      slot .float_8 x ⟨6, by decide⟩ = a.real ∧ slot .float_8 x ⟨7, by decide⟩ = a.imag := by
  have i0 : int32 (0 * 715827883) = 0 := by decide
  have i1 : int32 (1 * 715827883) = 715827883 := by decide
  have i2 : int32 (2 * 715827883) = 1431655766 := by decide
  have i3 : int32 (3 * 715827883) = -2147483647 := by decide
  have key : ∀ n : Nat, 1 ≤ n → n ≤ N → ([a] ++ List.replicate N c)[n]? = some c := by
    intro n h1 h2
    rw [List.getElem?_append_right (by simpa using h1), List.getElem?_replicate]
    have : n - [a].length < N := by
      simp only [List.length_singleton]
      omega
    rw [if_pos this]
  have c0 := cindex_at ⟨[a] ++ List.replicate N c, 2147483647⟩ 0 2147483647 (by norm_num)
  have c1 := cindex_at ⟨[a] ++ List.replicate N c, 2147483647⟩ 715827883 2863311530
    (by norm_num)
  have c2 := cindex_at ⟨[a] ++ List.replicate N c, 2147483647⟩ 1431655766 3579139413
    (by norm_num)
  have c3 := cindex_at ⟨[a] ++ List.replicate N c, 2147483647⟩ (-2147483647) 0 (by norm_num)
  simp only [] at c0 c1 c2 c3
  rw [key _ (by decide) (by omega)] at c0 c1 c2
  have c3' : cindex ⟨[a] ++ List.replicate N c, 2147483647⟩ (-2147483647) = some a := by
    rw [c3]
    simp
  refine ⟨?_, ?_, i3, ?_⟩
  · intro k
    have hk := k.isLt
    have hk' : k.val < 4 := hk
    simp only [List.length_append, List.length_singleton, List.length_replicate]
    omega
  · have e : ((2147483647 : Int) + 3 * 715827883).toNat = 4294967296 := by decide
    rw [e]
    exact key _ (by decide) hN
  · refine ⟨_, by
      simp only [mm_complex_load, mm_complex_load_float_8, i0, i1, i2, i3, c0, c1, c2, c3',
        Option.some_bind]
      rfl, ?_, ?_⟩
    · simp [slot, mm256_setr_ps]
    · simp [slot, mm256_setr_ps]

/-- C14, as stated, fails on the pack of four single precision complex
numbers at stride `715827883`: with the pointer `2147483647` places into an
array of `4294967297` complex numbers every `src[k*s]` lies inside the array
and `src[3*s]` is `(0, 0)`, but `3*s` computed in `int` is `-2147483647`, so
position 3 of the pack holds the first element of the array, `(1, 2)`. -/
theorem mm_complex_load_float_8_stride_overflow :
    (∀ k : Fin PackType.float_8.lanes,
      0 ≤ (2147483647 : Int) + (k.val : Int) * 715827883 ∧
      ((2147483647 : Int) + (k.val : Int) * 715827883).toNat <
        ([(⟨1, 2⟩ : complex ℚ)] ++ List.replicate 4294967296 (⟨0, 0⟩ : complex ℚ)).length) ∧
    ([(⟨1, 2⟩ : complex ℚ)] ++ List.replicate 4294967296 (⟨0, 0⟩ : complex ℚ))[
        ((2147483647 : Int) + 3 * 715827883).toNat]? = some ⟨0, 0⟩ ∧
    int32 (3 * 715827883) = -2147483647 ∧
    ∃ x, mm_complex_load .float_8
        ⟨[(⟨1, 2⟩ : complex ℚ)] ++ List.replicate 4294967296 (⟨0, 0⟩ : complex ℚ), 2147483647⟩
        715827883 = some x ∧
      slot .float_8 x ⟨6, by decide⟩ = 1 ∧ slot .float_8 x ⟨7, by decide⟩ = 2 := by
  obtain ⟨h1, h2, h3, x, hx, h6, h7⟩ :=
    complex_load_float_8_wrap 4294967296 (Nat.le_refl _) (⟨1, 2⟩ : complex ℚ)
      (⟨0, 0⟩ : complex ℚ)
  exact ⟨h1, h2, h3, x, hx, h6, h7⟩

/-- C15: with the AVX specialisations compiled in, `pack<T, N>` names a type
exactly for `(float, 1)`, `(float, 4)`, `(float, 8)`, `(double, 1)`,
`(double, 2)`, `(double, 4)`, so `(double, 8)` and `(float, 2)` do not resolve;
no two distinct pairs name the same type; the six pairs are those of the pack
types of this development. Without AVX only the two width-1 pairs resolve. -/
theorem pack_type_defined_and_injective :
    (∀ (T : Precision) (N : Int), (pack_type true T N).isSome = true ↔
      (T = .float ∧ (N = 1 ∨ N = 4 ∨ N = 8)) ∨ (T = .double ∧ (N = 1 ∨ N = 2 ∨ N = 4))) ∧
    pack_type true .double 8 = none ∧ pack_type true .float 2 = none ∧
    (∀ (avx : Bool) (T T' : Precision) (N N' : Int) (r : RegisterType),
      pack_type avx T N = some r → pack_type avx T' N' = some r → T = T' ∧ N = N') ∧
    (∀ p : PackType, pack_type true p.precision p.width = some p.register) ∧
    (∀ (T : Precision) (N : Int), (pack_type false T N).isSome = true ↔ N = 1) := by
  refine ⟨?_, by decide, by decide, ?_, ?_, ?_⟩
  · intro T N
    cases T <;> simp only [pack_type] <;> split_ifs <;> simp_all
  · intro avx T T' N N' r h h'
    cases T <;> cases T' <;> simp only [pack_type] at h h' <;> split_ifs at h h' <;>
      first
      | (cases h; cases h'; simp_all)
      | (cases h; cases h')
  · intro p
    cases p <;> decide
  · intro T N
    cases T <;> simp only [pack_type] <;> split_ifs <;> simp_all

/-- C16, as stated, fails for `mm_complex_mod` at width 1: its declared
return type is the primitive `float`, a single slot, not `pack<float, 1>` with
its two slots. -/
theorem mm_complex_mod_width1_returns_primitive :
    return_type .mm_complex_mod .float_1 = .primitive .float ∧
    return_type .mm_complex_mod .float_1 ≠ .packed .float_1 ∧
    (return_type .mm_complex_mod .float_1).slots = 1 ∧
    (ValueType.packed .float_1).slots = 2 ∧
    ValueType.carrier ℚ (return_type .mm_complex_mod .float_1) = ℚ := by
  refine ⟨rfl, by decide, rfl, rfl, rfl⟩

/-- C16, amended: every arithmetic and complex operation returns a value of
the precision of its operands; `mm_add`, `mm_sub`, `mm_mul`, `mm_div`,
`mm_complex_mul`, `mm_complex_div`, `mm_complex_conj` and `mm_complex_sq_mod`
on every pack type, and `mm_complex_mod` on the vector pack types, return the
pack type of their operands, with the same number of primitive slots; at
width 1 `mm_complex_mod` returns a single primitive. -/
theorem operations_return_type (F : Type) (op : Operation) (p : PackType) :
    (return_type op p).precision = p.precision ∧
    (return_type op p =
      if op = .mm_complex_mod ∧ p.isVector = false then .primitive p.precision
      else .packed p) ∧
    ((return_type op p).slots =
      if op = .mm_complex_mod ∧ p.isVector = false then 1 else 2 * p.lanes) ∧
    (ValueType.carrier F (return_type op p) =
      if op = .mm_complex_mod ∧ p.isVector = false then F else pack F p) := by
  cases op <;> cases p <;> exact ⟨rfl, rfl, rfl, rfl⟩

/-- C17: in `mm_complex_mul` of each vector pack type, for every complex
position `k`, the permute `cc` holds `(Re y_k, Re y_k)`, the permute `ba` holds
`(Im x_k, Re x_k)`, the permute `dd` holds `(Im y_k, Im y_k)` and the product
`dba = ba * dd` holds `(Im x_k Im y_k, Re x_k Im y_k)` in slots `(2k, 2k+1)`;
no permute takes a value from another complex position; the result is the
fused step applied to `x`, `cc` and `dba`. -/
theorem mm_complex_mul_permutes [Field F] :
    (∀ (x y : m128 F) (k : Fin 2),
      mm_permute_ps y 0b10100000 ⟨2 * k.val, by omega⟩ = y ⟨2 * k.val, by omega⟩ ∧
      mm_permute_ps y 0b10100000 ⟨2 * k.val + 1, by omega⟩ = y ⟨2 * k.val, by omega⟩ ∧
      mm_permute_ps x 0b10110001 ⟨2 * k.val, by omega⟩ = x ⟨2 * k.val + 1, by omega⟩ ∧
      mm_permute_ps x 0b10110001 ⟨2 * k.val + 1, by omega⟩ = x ⟨2 * k.val, by omega⟩ ∧
      mm_permute_ps y 0b11110101 ⟨2 * k.val, by omega⟩ = y ⟨2 * k.val + 1, by omega⟩ ∧
      mm_permute_ps y 0b11110101 ⟨2 * k.val + 1, by omega⟩ = y ⟨2 * k.val + 1, by omega⟩ ∧
      mm_mul_ps (mm_permute_ps x 0b10110001) (mm_permute_ps y 0b11110101) ⟨2 * k.val, by omega⟩ =
        x ⟨2 * k.val + 1, by omega⟩ * y ⟨2 * k.val + 1, by omega⟩ ∧
      mm_mul_ps (mm_permute_ps x 0b10110001) (mm_permute_ps y 0b11110101) ⟨2 * k.val + 1, by omega⟩ =
        x ⟨2 * k.val, by omega⟩ * y ⟨2 * k.val + 1, by omega⟩ ∧
      mm_complex_mul_float_4 x y =
        mm_fmaddsub_ps x (mm_permute_ps y 0b10100000) (mm_mul_ps (mm_permute_ps x 0b10110001) (mm_permute_ps y 0b11110101))) ∧
    (∀ (x y : m256 F) (k : Fin 4),
      mm256_permute_ps y 0b10100000 ⟨2 * k.val, by omega⟩ = y ⟨2 * k.val, by omega⟩ ∧
      mm256_permute_ps y 0b10100000 ⟨2 * k.val + 1, by omega⟩ = y ⟨2 * k.val, by omega⟩ ∧
      mm256_permute_ps x 0b10110001 ⟨2 * k.val, by omega⟩ = x ⟨2 * k.val + 1, by omega⟩ ∧
      mm256_permute_ps x 0b10110001 ⟨2 * k.val + 1, by omega⟩ = x ⟨2 * k.val, by omega⟩ ∧
      mm256_permute_ps y 0b11110101 ⟨2 * k.val, by omega⟩ = y ⟨2 * k.val + 1, by omega⟩ ∧
      mm256_permute_ps y 0b11110101 ⟨2 * k.val + 1, by omega⟩ = y ⟨2 * k.val + 1, by omega⟩ ∧
      mm256_mul_ps (mm256_permute_ps x 0b10110001) (mm256_permute_ps y 0b11110101) ⟨2 * k.val, by omega⟩ =
        x ⟨2 * k.val + 1, by omega⟩ * y ⟨2 * k.val + 1, by omega⟩ ∧
      mm256_mul_ps (mm256_permute_ps x 0b10110001) (mm256_permute_ps y 0b11110101) ⟨2 * k.val + 1, by omega⟩ =
        x ⟨2 * k.val, by omega⟩ * y ⟨2 * k.val + 1, by omega⟩ ∧
      mm_complex_mul_float_8 x y =
        mm256_fmaddsub_ps x (mm256_permute_ps y 0b10100000) (mm256_mul_ps (mm256_permute_ps x 0b10110001) (mm256_permute_ps y 0b11110101))) ∧
    (∀ (x y : m128d F) (k : Fin 1),
      mm_permute_pd y 0 ⟨2 * k.val, by omega⟩ = y ⟨2 * k.val, by omega⟩ ∧
      mm_permute_pd y 0 ⟨2 * k.val + 1, by omega⟩ = y ⟨2 * k.val, by omega⟩ ∧
      mm_permute_pd x 0b01 ⟨2 * k.val, by omega⟩ = x ⟨2 * k.val + 1, by omega⟩ ∧
      mm_permute_pd x 0b01 ⟨2 * k.val + 1, by omega⟩ = x ⟨2 * k.val, by omega⟩ ∧
      mm_permute_pd y 0b11 ⟨2 * k.val, by omega⟩ = y ⟨2 * k.val + 1, by omega⟩ ∧
      mm_permute_pd y 0b11 ⟨2 * k.val + 1, by omega⟩ = y ⟨2 * k.val + 1, by omega⟩ ∧
      mm_mul_pd (mm_permute_pd x 0b01) (mm_permute_pd y 0b11) ⟨2 * k.val, by omega⟩ =
        x ⟨2 * k.val + 1, by omega⟩ * y ⟨2 * k.val + 1, by omega⟩ ∧
      mm_mul_pd (mm_permute_pd x 0b01) (mm_permute_pd y 0b11) ⟨2 * k.val + 1, by omega⟩ =
        x ⟨2 * k.val, by omega⟩ * y ⟨2 * k.val + 1, by omega⟩ ∧
      mm_complex_mul_double_2 x y =
        mm_fmaddsub_pd x (mm_permute_pd y 0) (mm_mul_pd (mm_permute_pd x 0b01) (mm_permute_pd y 0b11))) ∧
    (∀ (x y : m256d F) (k : Fin 2),
      mm256_permute_pd y 0b0000 ⟨2 * k.val, by omega⟩ = y ⟨2 * k.val, by omega⟩ ∧
      mm256_permute_pd y 0b0000 ⟨2 * k.val + 1, by omega⟩ = y ⟨2 * k.val, by omega⟩ ∧
      mm256_permute_pd x 0b0101 ⟨2 * k.val, by omega⟩ = x ⟨2 * k.val + 1, by omega⟩ ∧
      mm256_permute_pd x 0b0101 ⟨2 * k.val + 1, by omega⟩ = x ⟨2 * k.val, by omega⟩ ∧
      mm256_permute_pd y 0b1111 ⟨2 * k.val, by omega⟩ = y ⟨2 * k.val + 1, by omega⟩ ∧
      mm256_permute_pd y 0b1111 ⟨2 * k.val + 1, by omega⟩ = y ⟨2 * k.val + 1, by omega⟩ ∧
      mm256_mul_pd (mm256_permute_pd x 0b0101) (mm256_permute_pd y 0b1111) ⟨2 * k.val, by omega⟩ =
        x ⟨2 * k.val + 1, by omega⟩ * y ⟨2 * k.val + 1, by omega⟩ ∧
      mm256_mul_pd (mm256_permute_pd x 0b0101) (mm256_permute_pd y 0b1111) ⟨2 * k.val + 1, by omega⟩ =
        x ⟨2 * k.val, by omega⟩ * y ⟨2 * k.val + 1, by omega⟩ ∧
      mm_complex_mul_double_4 x y =
        mm256_fmaddsub_pd x (mm256_permute_pd y 0b0000) (mm256_mul_pd (mm256_permute_pd x 0b0101) (mm256_permute_pd y 0b1111))) := by
  refine ⟨fun x y k => ?_, fun x y k => ?_, fun x y k => ?_, fun x y k => ?_⟩
  · fin_cases k <;>
    simp [mm_permute_ps, mm_mul_ps, mm_complex_mul_float_4, fin4_lit, fin_lit_val]
  · fin_cases k <;>
    simp [mm256_permute_ps, mm_permute_ps, mm256_mul_ps, mm_complex_mul_float_8, join_ps, lo_ps,
      hi_ps, fin4_lit, fin8_lit, fin_lit_val]
  · fin_cases k
    simp [mm_permute_pd, mm_mul_pd, mm_complex_mul_double_2, immBit, fin2_lit, fin_lit_val]
  · fin_cases k <;>
    simp [mm256_permute_pd, mm256_mul_pd, mm_complex_mul_double_4, immBit, fin4_lit,
      fin_lit_val]

/-- C18, as stated, fails: on the pack of one double precision complex number
with `x = (1, 2)` and `y = (3, 4)`, slot 0 of `mm_complex_mul x y` is
`1*3 - 2*4 = -5`, not `x[0]*cc[0] + dba[0] = 11`, and slot 1 is
`2*3 + 1*4 = 10`, not `x[1]*cc[1] - dba[1] = 2`. -/
theorem mm_complex_mul_fused_step_not_add_even :
    mm_complex_mul_double_2 (mm_setr_pd (1 : ℚ) 2) (mm_setr_pd 3 4) 0 = -5 ∧
    mm_setr_pd (1 : ℚ) 2 0 * mm_permute_pd (mm_setr_pd (3 : ℚ) 4) 0 0 +
      mm_mul_pd (mm_permute_pd (mm_setr_pd (1 : ℚ) 2) 0b01)
        (mm_permute_pd (mm_setr_pd (3 : ℚ) 4) 0b11) 0 = 11 ∧
    mm_complex_mul_double_2 (mm_setr_pd (1 : ℚ) 2) (mm_setr_pd 3 4) 1 = 10 ∧
    mm_setr_pd (1 : ℚ) 2 1 * mm_permute_pd (mm_setr_pd (3 : ℚ) 4) 0 1 -
      mm_mul_pd (mm_permute_pd (mm_setr_pd (1 : ℚ) 2) 0b01)
        (mm_permute_pd (mm_setr_pd (3 : ℚ) 4) 0b11) 1 = 2 ∧
    mm_complex_mul_double_2 (mm_setr_pd (1 : ℚ) 2) (mm_setr_pd 3 4) 0 ≠
      mm_setr_pd (1 : ℚ) 2 0 * mm_permute_pd (mm_setr_pd (3 : ℚ) 4) 0 0 +
        mm_mul_pd (mm_permute_pd (mm_setr_pd (1 : ℚ) 2) 0b01)
          (mm_permute_pd (mm_setr_pd (3 : ℚ) 4) 0b11) 0 := by
  refine ⟨?_, ?_, ?_, ?_, ?_⟩ <;>
  simp [mm_complex_mul_double_2, mm_fmaddsub_pd, mm_mul_pd, mm_permute_pd, mm_setr_pd, immBit] <;>
  norm_num

/-- C18, amended: in `mm_complex_mul` of each vector pack type the final fused
step combines `x*cc` with `dba` by subtracting `dba` on the even slots and
adding it on the odd slots: `result[i] = x[i]*cc[i] - dba[i]` for every even
slot index `i` and `result[i] = x[i]*cc[i] + dba[i]` for every odd one. -/
theorem mm_complex_mul_fused_step [Field F] :
    (∀ (x y : m128 F) (i : Fin 4),
      mm_complex_mul_float_4 x y i =
        if i.val % 2 = 0 then
          x i * mm_permute_ps y 0b10100000 i - mm_mul_ps (mm_permute_ps x 0b10110001) (mm_permute_ps y 0b11110101) i
        else x i * mm_permute_ps y 0b10100000 i + mm_mul_ps (mm_permute_ps x 0b10110001) (mm_permute_ps y 0b11110101) i) ∧
    (∀ (x y : m256 F) (i : Fin 8),
      mm_complex_mul_float_8 x y i =
        if i.val % 2 = 0 then
          x i * mm256_permute_ps y 0b10100000 i - mm256_mul_ps (mm256_permute_ps x 0b10110001) (mm256_permute_ps y 0b11110101) i
        else x i * mm256_permute_ps y 0b10100000 i + mm256_mul_ps (mm256_permute_ps x 0b10110001) (mm256_permute_ps y 0b11110101) i) ∧
    (∀ (x y : m128d F) (i : Fin 2),
      mm_complex_mul_double_2 x y i =
        if i.val % 2 = 0 then
          x i * mm_permute_pd y 0 i - mm_mul_pd (mm_permute_pd x 0b01) (mm_permute_pd y 0b11) i
        else x i * mm_permute_pd y 0 i + mm_mul_pd (mm_permute_pd x 0b01) (mm_permute_pd y 0b11) i) ∧
    (∀ (x y : m256d F) (i : Fin 4),
      mm_complex_mul_double_4 x y i =
        if i.val % 2 = 0 then
          x i * mm256_permute_pd y 0b0000 i - mm256_mul_pd (mm256_permute_pd x 0b0101) (mm256_permute_pd y 0b1111) i
        else x i * mm256_permute_pd y 0b0000 i + mm256_mul_pd (mm256_permute_pd x 0b0101) (mm256_permute_pd y 0b1111) i) :=
  ⟨fun _ _ _ => rfl, fun _ _ _ => rfl, fun _ _ _ => rfl, fun _ _ _ => rfl⟩

/-- C19: `mm_complex_mul` is commutative: for every pack type and all packs
`a`, `b`, `mm_complex_mul a b` and `mm_complex_mul b a` agree in every slot. -/
theorem mm_complex_mul_comm [Field F] (p : PackType) (a b : pack F p) :
    mm_complex_mul p a b = mm_complex_mul p b a ∧
    ∀ i, slot p (mm_complex_mul p a b) i = slot p (mm_complex_mul p b a) i := by
  have h : ∀ i, slot p (mm_complex_mul p a b) i = slot p (mm_complex_mul p b a) i := by
    intro i
    rw [slot_eq_re_im p _ i, slot_eq_re_im p (mm_complex_mul p b a) i,
      (complex_mul_lane p a b _).1, (complex_mul_lane p a b _).2,
      (complex_mul_lane p b a _).1, (complex_mul_lane p b a _).2]
    split <;> ring
  exact ⟨pack_ext p _ _ h, h⟩

/-- C20: for every pack type and every pack `a`, `mm_complex_mul a (mm_complex_conj a)`
holds at every complex position `k` the pair `(Re(a_k)^2 + Im(a_k)^2, 0)`: the
real slot equals the real slot of `mm_complex_sq_mod a` and the imaginary slot
is `0`. -/
theorem mm_complex_mul_conj_self [Field F] (B : BitOr F) (p : PackType) (a : pack F p)
    (k : Fin p.lanes) :
    slot p (mm_complex_mul p a (mm_complex_conj p a)) ⟨2 * k.val, by omega⟩ =
      re p a k ^ 2 + im p a k ^ 2 ∧
    slot p (mm_complex_mul p a (mm_complex_conj p a)) ⟨2 * k.val, by omega⟩ =
      slot p (mm_complex_sq_mod B p a) ⟨2 * k.val, by omega⟩ ∧
    slot p (mm_complex_mul p a (mm_complex_conj p a)) ⟨2 * k.val + 1, by omega⟩ = 0 := by
  have hm := complex_mul_lane p a (mm_complex_conj p a) k
  have hc := complex_conj_lane p a k
  have hs := (complex_sq_mod_lane B p a k).1
  simp only [re, im] at hm hc hs
  simp only [re, im]
  rw [hm.1, hm.2, hc.1, hc.2, hs]
  refine ⟨by ring, by ring, by ring⟩

/-- The two slots of each complex position of the broadcast constructors. -/
theorem set_lane [Field F] (p : PackType) (x y : F) (k : Fin p.lanes) :
    (re p (mm_set1 p x) k = x ∧ im p (mm_set1 p x) k = x) ∧
    (re p (mm_pair_set p x y) k = x ∧ im p (mm_pair_set p x y) k = y) := by
  have h0 : (2 * k.val) % 2 = 0 := by omega
  have h1 : ¬ (2 * k.val + 1) % 2 = 0 := by omega
  refine ⟨⟨(set_slot p x y _).1, (set_slot p x y _).1⟩, ?_, ?_⟩
  · unfold re
    rw [(set_slot p x y _).2, if_pos h0]
  · unfold im
    rw [(set_slot p x y _).2, if_neg h1]

/-- C21, as stated, fails in double precision: on the pack of one double
precision complex number with `a = (1, 1.25)`, `x = 1.75 + 2^-52` and
`y = 1.75 + 2^-51`, `x` and `y` differ and `Im a` is not zero, yet
`mm_mul a (mm_pair_set x y)` has the same two slots as the width-1
`mm_mul a (mm_pair_set x y)`: both imaginary products round to
`4925812092436481 * 2^-51`. -/
theorem mm_mul_pair_set_binary64_coincide :
    (⟨false, 7881299347898369, -52⟩ : binary64) ≠ ⟨false, 7881299347898370, -52⟩ ∧
    mm_mul_double_2_binary64
        (mm_setr_pd_binary64 ⟨false, 4503599627370496, -52⟩ ⟨false, 5629499534213120, -52⟩)
        (mm_pair_set_double_2_binary64 ⟨false, 7881299347898369, -52⟩
          ⟨false, 7881299347898370, -52⟩) 0 =
      (mm_mul_1_binary64 ⟨⟨false, 4503599627370496, -52⟩, ⟨false, 5629499534213120, -52⟩⟩
        (mm_pair_set_1_binary64 ⟨false, 7881299347898369, -52⟩
          ⟨false, 7881299347898370, -52⟩)).real ∧
    mm_mul_double_2_binary64
        (mm_setr_pd_binary64 ⟨false, 4503599627370496, -52⟩ ⟨false, 5629499534213120, -52⟩)
        (mm_pair_set_double_2_binary64 ⟨false, 7881299347898369, -52⟩
          ⟨false, 7881299347898370, -52⟩) 1 =
      (mm_mul_1_binary64 ⟨⟨false, 4503599627370496, -52⟩, ⟨false, 5629499534213120, -52⟩⟩
        (mm_pair_set_1_binary64 ⟨false, 7881299347898369, -52⟩
          ⟨false, 7881299347898370, -52⟩)).imag ∧
    mm_mul_double_2_binary64
        (mm_setr_pd_binary64 ⟨false, 4503599627370496, -52⟩ ⟨false, 5629499534213120, -52⟩)
        (mm_pair_set_double_2_binary64 ⟨false, 7881299347898369, -52⟩
          ⟨false, 7881299347898370, -52⟩) 1 =
      some ⟨false, 4925812092436481, -51⟩ := by
  decide

/-- C21, amended: for every vector pack type, every pack `a`, every primitive
`s` and every complex position `k`, slots `(2k, 2k+1)` of `mm_mul a (mm_set1 s)`
are the width-1 `mm_mul a_k (mm_set1 s) = (Re a_k * s, Im a_k * s)`, and
likewise for `mm_div` with `s` not zero; with `mm_pair_set x y` as second
operand the vector result is `(Re a_k * x, Im a_k * y)` and the width-1 result
is `(Re a_k * x, Im a_k * x)`, which differ exactly when the products
`Im a_k * y` and `Im a_k * x` differ: in exact arithmetic, whenever `x` differs
from `y` and `Im a_k` is not zero. -/
theorem mm_mul_div_broadcast_vs_width1 [Field F] (p : PackType) (hv : p.isVector = true)
    (a : pack F p) (k : Fin p.lanes) (s x y : F) :
    (lane p (mm_mul p a (mm_set1 p s)) k = mm_mul_1 (lane p a k) (mm_set1_1 s) ∧
     mm_mul_1 (lane p a k) (mm_set1_1 s) = ⟨re p a k * s, im p a k * s⟩) ∧
    (s ≠ 0 →
      lane p (mm_div p a (mm_set1 p s)) k = mm_div_1 (lane p a k) (mm_set1_1 s) ∧
      mm_div_1 (lane p a k) (mm_set1_1 s) = ⟨re p a k / s, im p a k / s⟩) ∧
    lane p (mm_mul p a (mm_pair_set p x y)) k = ⟨re p a k * x, im p a k * y⟩ ∧
    mm_mul_1 (lane p a k) (mm_pair_set_1 x y) = ⟨re p a k * x, im p a k * x⟩ ∧
    (x ≠ y → im p a k ≠ 0 →
      lane p (mm_mul p a (mm_pair_set p x y)) k ≠
        mm_mul_1 (lane p a k) (mm_pair_set_1 x y)) ∧
    (lane p (mm_mul p a (mm_pair_set p x y)) k ≠ mm_mul_1 (lane p a k) (mm_pair_set_1 x y) ↔
      im p a k * y ≠ im p a k * x) := by
  have hs := mul_div_lane p a (mm_set1 p s) k
  have hp := mul_div_lane p a (mm_pair_set p x y) k
  have e1 := (set_lane p s s k).1
  have e2 := (set_lane p x y k).2
  simp only [hv, if_true, e1.1, e1.2] at hs
  simp only [hv, if_true, e2.1, e2.2] at hp
  have hvec : lane p (mm_mul p a (mm_pair_set p x y)) k = ⟨re p a k * x, im p a k * y⟩ := by
    simp only [lane, hp.1.1, hp.1.2]
  have hw1 : mm_mul_1 (lane p a k) (mm_pair_set_1 x y) = ⟨re p a k * x, im p a k * x⟩ := rfl
  refine ⟨⟨?_, rfl⟩, fun _ => ⟨?_, rfl⟩, hvec, hw1, fun hxy him => ?_, ?_⟩
  · simp only [lane, mm_mul_1, mm_set1_1, complex.mulScalar, hs.1.1, hs.1.2]
  · simp only [lane, mm_div_1, mm_set1_1, complex.divScalar, hs.2.1, hs.2.2]
  · rw [hvec, hw1]
    intro h
    have h2 := congrArg complex.imag h
    simp only at h2
    exact hxy (mul_left_cancel₀ him h2).symm
  · rw [hvec, hw1]
    constructor
    · intro h h2
      exact h (by rw [h2])
    · intro h h2
      exact h (congrArg complex.imag h2)

/-- Witness for C21 on the pack of two double precision complex numbers
`(1, 2), (3, 4)`, position 1, with `s = 5` and the pair `(5, 7)`. -/
theorem mm_mul_div_broadcast_vs_width1_witness :
    PackType.double_4.isVector = true ∧ (5 : ℚ) ≠ 0 ∧ (5 : ℚ) ≠ 7 ∧
    im .double_4 (mm256_setr_pd (1 : ℚ) 2 3 4) ⟨1, by decide⟩ ≠ 0 ∧
    lane .double_4 (mm_div .double_4 (mm256_setr_pd (1 : ℚ) 2 3 4) (mm_set1 .double_4 5))
        ⟨1, by decide⟩ =
      mm_div_1 (lane .double_4 (mm256_setr_pd (1 : ℚ) 2 3 4) ⟨1, by decide⟩) (mm_set1_1 5) ∧
    lane .double_4 (mm_mul .double_4 (mm256_setr_pd (1 : ℚ) 2 3 4) (mm_pair_set .double_4 5 7))
        ⟨1, by decide⟩ ≠
      mm_mul_1 (lane .double_4 (mm256_setr_pd (1 : ℚ) 2 3 4) ⟨1, by decide⟩)
        (mm_pair_set_1 5 7) :=
  have h5 : (5 : ℚ) ≠ 0 := by norm_num
  have h57 : (5 : ℚ) ≠ 7 := by norm_num
  have him : im .double_4 (mm256_setr_pd (1 : ℚ) 2 3 4) ⟨1, by decide⟩ ≠ 0 := by
    show (4 : ℚ) ≠ 0
    norm_num
  ⟨rfl, h5, h57, him,
    ((mm_mul_div_broadcast_vs_width1 .double_4 rfl (mm256_setr_pd (1 : ℚ) 2 3 4)
      ⟨1, by decide⟩ 5 5 7).2.1 h5).1,
    (mm_mul_div_broadcast_vs_width1 .double_4 rfl (mm256_setr_pd (1 : ℚ) 2 3 4)
      ⟨1, by decide⟩ 5 5 7).2.2.2.2.1 h57 him⟩

/-- C22: `mm_store` changes only the destination slots the pack covers: for
every pack type, every destination array and every pack, after a store every
element `dest[j]` with `j` at or beyond the number of primitives of the pack
(`j ≥ 2` at width 1, `j ≥ N` for `pack<F, N>` with `N` in 2, 4, 8) is
unchanged, and the array length is unchanged. -/
theorem mm_store_frame [Field F] (p : PackType) (dest : List F) (x : pack F p)
    (hl : 2 * p.lanes ≤ dest.length) :
    ((2 * p.lanes : Nat) : Int) = (if p.width = 1 then 2 else p.width) ∧
    ∃ out, mm_store p dest x = some out ∧ out.length = dest.length ∧
      ∀ j, 2 * p.lanes ≤ j → out[j]? = dest[j]? := by
  refine ⟨primitives_of_width p, ?_⟩
  obtain ⟨out, ho, h1, _, h3⟩ := (mm_store_spec p dest x).1 hl
  exact ⟨out, ho, h1, h3⟩

/-- Witness for C22: a store of two doubles into an array of five. -/
theorem mm_store_frame_witness :
    2 * PackType.double_2.lanes ≤ ([0, 0, 7, 8, 9] : List ℚ).length ∧
    mm_store .double_2 ([0, 0, 7, 8, 9] : List ℚ) (mm_setr_pd 1 2) = some [1, 2, 7, 8, 9] ∧
    ∃ out, mm_store .double_2 ([0, 0, 7, 8, 9] : List ℚ) (mm_setr_pd 1 2) = some out ∧
      out.length = ([0, 0, 7, 8, 9] : List ℚ).length ∧
      ∀ j, 2 * PackType.double_2.lanes ≤ j → out[j]? = ([0, 0, 7, 8, 9] : List ℚ)[j]? :=
  have h : mm_store .double_2 ([0, 0, 7, 8, 9] : List ℚ) (mm_setr_pd 1 2) =
      some [1, 2, 7, 8, 9] := by
    simp [mm_store, mm_store_double_2, mm_storeu_pd, storeu, mm_setr_pd, List.ofFn_succ]
  ⟨by decide, h,
    (mm_store_frame .double_2 ([0, 0, 7, 8, 9] : List ℚ) (mm_setr_pd 1 2) (by decide)).2⟩

end theorems

end heffte.stock
